import Mathlib

/-!
Verification of the entity handle allocator and deferred command lifecycle of
the Star-Game repository (Source/Game/EntityHandle.hpp, EntitySystem.hpp,
EntitySystem.cpp and its revisions).  The definitions below are a shallow
embedding of the C++ source: the slot table is a list of handle entries, the
free list is threaded through the nextFree links exactly as in the source, and
the deferred command queue is a list drained in FIFO order.  C++ int values are
modelled as unbounded integers; the source guards the identifier against
overflow with a fatal Verify and the specification treats version counter
wraparound as out of scope.  Event subscribers are modelled as pure boolean
voters for the finalize channel; create and destroy notifications are recorded
in an event trace.
-/

set_option maxHeartbeats 1000000

namespace StarGame

/-- Entity handle from Source/Game/EntityHandle.hpp: an identifier and a
version counter.  Equality compares both fields, as the C++ operator== does. -/
structure EntityHandle where
  identifier : Int
  version : Int
deriving DecidableEq, Repr

/-- The null handle produced by the EntityHandle default constructor
(identifier 0, version 0). -/
def EntityHandle.null : EntityHandle := ⟨0, 0⟩

/-- Handle flags from EntitySystem.hpp: a bitmask over the Valid, Active and
Destroy bits, modelled as a record of the three booleans.  HandleFlags::Free
is the bitmask with no bit set. -/
structure HandleFlags where
  valid : Bool
  active : Bool
  destroy : Bool
deriving DecidableEq, Repr

/-- HandleFlags::Free: no flag set. -/
def HandleFlags.free : HandleFlags := ⟨false, false, false⟩

instance : Inhabited HandleFlags := ⟨HandleFlags.free⟩

/-- Slot entry of the handle table (struct HandleEntry): the stored handle
value, the state flags and the free list link (-1 meaning not linked). -/
structure HandleEntry where
  handle : EntityHandle
  flags : HandleFlags
  nextFree : Int
deriving DecidableEq, Repr

instance : Inhabited HandleEntry := ⟨⟨EntityHandle.null, HandleFlags.free, -1⟩⟩

/-- Entity command types (struct EntityCommands). -/
inductive EntityCommandType where
  | create
  | destroy
deriving DecidableEq, Repr

/-- Deferred entity command (struct EntityCommand): an operation together with
a copied handle value. -/
structure EntityCommand where
  type : EntityCommandType
  handle : EntityHandle
deriving DecidableEq, Repr

/-- The mutable state of EntitySystem: command queue (front at the head of the
list), slot table, live entity counter, free list queue indices and emptiness
flag, and the initialization flag. -/
structure EntityState where
  commands : List EntityCommand
  handles : List HandleEntry
  entityCount : Int
  freeListDequeue : Int
  freeListEnqueue : Int
  freeListIsEmpty : Bool
  initialized : Bool
deriving DecidableEq, Repr

/-- Notifications emitted through the create and destroy event channels,
recorded as a trace. -/
inductive EntityEvent where
  | create (h : EntityHandle)
  | destroy (h : EntityHandle)
deriving DecidableEq, Repr

/-- Reading m_handles at an integer index (vector indexing in the source). -/
def getEntry (hs : List HandleEntry) (i : Int) : HandleEntry :=
  hs.getD i.toNat default

/-- Writing m_handles at an integer index. -/
def setEntry (hs : List HandleEntry) (i : Int) (e : HandleEntry) : List HandleEntry :=
  hs.set i.toNat e

/-- Writing only the nextFree field of a slot. -/
def setNextFree (hs : List HandleEntry) (i : Int) (v : Int) : List HandleEntry :=
  setEntry hs i { getEntry hs i with nextFree := v }

/-- Modelled from the spec: the CollectWhileTrue aggregation of the external
Dispatcher used for the finalize channel; the Dispatcher implementation itself
is not among the provided sources.  Subscribers are invoked in subscription
order, each invoked subscriber's boolean result is AND-ed into a result that
starts at true, and invocation stops at the first subscriber returning false.
With no subscribers the result is true. -/
def collectWhileTrue (subs : List (EntityHandle → Bool)) (h : EntityHandle) : Bool :=
  match subs with
  | [] => true
  | f :: rest => if f h then collectWhileTrue rest h else false

/-- Modelled from the spec: how many subscribers the CollectWhileTrue
dispatch invokes before stopping. -/
def collectWhileTrueInvoked (subs : List (EntityHandle → Bool)) (h : EntityHandle) : Nat :=
  match subs with
  | [] => 0
  | f :: rest => if f h then collectWhileTrueInvoked rest h + 1 else 1

/-- EntitySystem::CalculateHandleIndex: the slot index of a handle, with no
validation. -/
def calculateHandleIndex (e : EntityHandle) : Int := e.identifier - 1

/-- EntitySystem::IsHandleValid (identical in all three source revisions).
The Option result models the two fatal assertions on the identifier range:
a none result means an assertion fires (with assertions compiled out the
subsequent slot access is out of bounds). -/
def isHandleValidChecked (s : EntityState) (e : EntityHandle) : Option Bool :=
  if s.initialized = false then some false
  else if e.identifier = 0 then some false
  else if ¬ (0 < e.identifier ∧ e.identifier ≤ (s.handles.length : Int)) then none
  else if (getEntry s.handles (calculateHandleIndex e)).flags.valid = false then some false
  else if (getEntry s.handles (calculateHandleIndex e)).flags.destroy = true then some false
  else if (getEntry s.handles (calculateHandleIndex e)).handle.version ≠ e.version then some false
  else some true

/-- EntitySystem::AllocateHandle (src/unnamed/part_001 lines 244-277 and
part_002 lines 224-257): append a fresh Free slot with identifier equal to the
new table size and version 0, and link it at the tail of the free list. -/
def allocateHandle (s : EntityState) : EntityState :=
  let handle : EntityHandle := ⟨(s.handles.length : Int) + 1, 0⟩
  let entry : HandleEntry := ⟨handle, HandleFlags.free, -1⟩
  let handles := s.handles ++ [entry]
  let handleIndex : Int := (s.handles.length : Int)
  if s.freeListIsEmpty then
    { s with handles := handles, freeListDequeue := handleIndex,
             freeListEnqueue := handleIndex, freeListIsEmpty := false }
  else
    { s with handles := setNextFree handles s.freeListEnqueue handleIndex,
             freeListEnqueue := handleIndex }

/-- EntitySystem::RetrieveHandle (src/unnamed/part_002 lines 259-299;
part_001 inlines the same code in CreateEntity): allocate when the free list
is empty, then pop the head of the free list and clear its link.  Returns the
popped slot index together with the new state. -/
def retrieveHandle (s : EntityState) : Int × EntityState :=
  let s := if s.freeListIsEmpty then allocateHandle s else s
  let handleIndex := s.freeListDequeue
  let entry := getEntry s.handles handleIndex
  if s.freeListDequeue = s.freeListEnqueue then
    (handleIndex, { s with freeListDequeue := -1, freeListEnqueue := -1,
                           freeListIsEmpty := true })
  else
    (handleIndex, { s with freeListDequeue := entry.nextFree,
                           handles := setNextFree s.handles handleIndex (-1) })

/-- EntitySystem::CreateEntity (part_001 lines 86-142, part_002 lines 88-111):
return the null handle when not set up; otherwise retrieve a slot, set Valid,
enqueue a Create command with the slot's handle and return that handle.  The
live entity counter is not touched here; it is adjusted during commit. -/
def createEntity (s : EntityState) : EntityHandle × EntityState :=
  if s.initialized = false then (EntityHandle.null, s)
  else
    let (handleIndex, s1) := retrieveHandle s
    let entry := getEntry s1.handles handleIndex
    let entry1 := { entry with flags := { entry.flags with valid := true } }
    let s2 := { s1 with handles := setEntry s1.handles handleIndex entry1 }
    (entry1.handle,
     { s2 with commands := s2.commands ++ [⟨EntityCommandType.create, entry1.handle⟩] })

/-- EntitySystem::DestroyEntity (part_001 lines 144-169, part_002 lines
113-138): a no-op when not set up or when the handle is not currently valid;
otherwise set the Destroy flag and enqueue a Destroy command. -/
def destroyEntity (s : EntityState) (e : EntityHandle) : EntityState :=
  if s.initialized = false then s
  else if isHandleValidChecked s e ≠ some true then s
  else
    let handleIndex := calculateHandleIndex e
    let entry := getEntry s.handles handleIndex
    let entry1 := { entry with flags := { entry.flags with destroy := true } }
    { s with handles := setEntry s.handles handleIndex entry1,
             commands := s.commands ++ [⟨EntityCommandType.destroy, entry1.handle⟩] }

/-- EntitySystem::FreeHandle (part_001 lines 328-363, part_002 lines 352-387):
set the slot state to Free, increment the stored handle version, and append
the slot to the tail of the free list queue. -/
def freeHandle (handleIndex : Int) (s : EntityState) : EntityState :=
  let entry := getEntry s.handles handleIndex
  let entry1 := { entry with flags := HandleFlags.free,
                             handle := { entry.handle with version := entry.handle.version + 1 } }
  let handles := setEntry s.handles handleIndex entry1
  if s.freeListIsEmpty then
    { s with handles := handles, freeListDequeue := handleIndex,
             freeListEnqueue := handleIndex, freeListIsEmpty := false }
  else
    { s with handles := setNextFree handles s.freeListEnqueue handleIndex,
             freeListEnqueue := handleIndex }

/-- EntitySystem::DestroyHandle (part_001 lines 310-326, part_002 lines
334-350): emit the destroy notification with the stored handle, free the slot,
and decrement the live entity counter. -/
def destroyHandle (handleIndex : Int) (s : EntityState) : EntityState × List EntityEvent :=
  let entry := getEntry s.handles handleIndex
  let s1 := freeHandle handleIndex s
  ({ s1 with entityCount := s1.entityCount - 1 }, [EntityEvent.destroy entry.handle])

/-- EntitySystem::CreateHandle (part_001 lines 279-308, part_002 lines
301-332): increment the live entity counter, take the finalize vote when there
are subscribers, and either run the destroy sequence on a veto or set Active
and emit the create notification. -/
def createHandle (subs : List (EntityHandle → Bool)) (handleIndex : Int) (s : EntityState) :
    EntityState × List EntityEvent :=
  let s1 := { s with entityCount := s.entityCount + 1 }
  let entry := getEntry s1.handles handleIndex
  if subs.isEmpty = false ∧ collectWhileTrue subs entry.handle = false then
    destroyHandle handleIndex s1
  else
    let entry1 := { entry with flags := { entry.flags with active := true } }
    ({ s1 with handles := setEntry s1.handles handleIndex entry1 },
     [EntityEvent.create entry1.handle])

/-- One iteration of the ProcessCommands drain loop (part_001 lines 201-241).
A Create command is located by index and handed to CreateHandle (the source
asserts that the stored handle still matches; on reachable states it always
does, see processCommand matching lemmas below).  A Destroy command whose
handle no longer equals the stored slot handle is skipped as stale in the
part_001 revision; the part_002 and Source/Game/EntitySystem.cpp revisions
fail a fatal assertion at that point instead. -/
def processCommand (subs : List (EntityHandle → Bool)) (s : EntityState) (c : EntityCommand) :
    EntityState × List EntityEvent :=
  match c.type with
  | EntityCommandType.create =>
      createHandle subs (calculateHandleIndex c.handle) s
  | EntityCommandType.destroy =>
      let handleIndex := calculateHandleIndex c.handle
      let entry := getEntry s.handles handleIndex
      if c.handle ≠ entry.handle then (s, [])
      else destroyHandle handleIndex s

/-- The drain loop of ProcessCommands: process the queued commands strictly in
FIFO order, collecting the emitted notifications.  Subscriber re-entrancy is
outside the model: subscribers are pure voters and cannot enqueue commands. -/
def drainGo (subs : List (EntityHandle → Bool)) :
    List EntityCommand → EntityState → EntityState × List EntityEvent
  | [], s => (s, [])
  | c :: cs, s =>
      let p := processCommand subs s c
      let q := drainGo subs cs p.1
      (q.1, p.2 ++ q.2)

/-- EntitySystem::ProcessCommands (part_001 lines 195-242): drain the command
queue in FIFO order, removing each command after it is applied. -/
def processCommands (subs : List (EntityHandle → Bool)) (s : EntityState) :
    EntityState × List EntityEvent :=
  if s.initialized = false then (s, [])
  else drainGo subs s.commands { s with commands := [] }

/-- The loop of DestroyAllEntities over the slot table: destroy every entry
that still has Valid set. -/
def destroyAllGo : List Nat → EntityState → EntityState × List EntityEvent
  | [], s => (s, [])
  | i :: rest, s =>
      let entry := getEntry s.handles (i : Int)
      if entry.flags.valid = true then
        let p := destroyHandle (calculateHandleIndex entry.handle) s
        let q := destroyAllGo rest p.1
        (q.1, p.2 ++ q.2)
      else destroyAllGo rest s

/-- EntitySystem::DestroyAllEntities (part_001 lines 171-193, part_002 lines
140-163): process pending commands first, then destroy every still valid
entry of the slot table. -/
def destroyAllEntities (subs : List (EntityHandle → Bool)) (s : EntityState) :
    EntityState × List EntityEvent :=
  if s.initialized = false then (s, [])
  else
    let p := processCommands subs s
    let q := destroyAllGo (List.range p.1.handles.length) p.1
    (q.1, p.2 ++ q.2)

/-- EntitySystem::GetEntityCount. -/
def getEntityCount (s : EntityState) : Int := s.entityCount

/-- The state of a freshly constructed entity system after its set-up call
succeeded (empty table, empty queue, empty free list, counter 0). -/
def initialState : EntityState :=
  { commands := [], handles := [], entityCount := 0,
    freeListDequeue := -1, freeListEnqueue := -1, freeListIsEmpty := true,
    initialized := true }

/-- The number of slots with the Active flag set. -/
def countActive (hs : List HandleEntry) : Nat :=
  hs.countP (fun e => e.flags.active)

/-- One externally visible operation of the entity system. -/
inductive Step : EntityState → EntityState → Prop where
  | create (s : EntityState) : Step s (createEntity s).2
  | destroy (s : EntityState) (e : EntityHandle) : Step s (destroyEntity s e)
  | process (s : EntityState) (subs : List (EntityHandle → Bool)) :
      Step s (processCommands subs s).1
  | destroyAll (s : EntityState) (subs : List (EntityHandle → Bool)) :
      Step s (destroyAllEntities subs s).1

/-- Zero or more operations. -/
def Reaches (s t : EntityState) : Prop := Relation.ReflTransGen Step s t

/-- States reachable from a freshly set-up entity system. -/
def Reachable (s : EntityState) : Prop := Reaches initialState s

/-! Basic facts about slot table access. -/

theorem length_setEntry (hs : List HandleEntry) (i : Int) (e : HandleEntry) :
    (setEntry hs i e).length = hs.length :=
  List.length_set hs i.toNat e

theorem getEntry_set_self (hs : List HandleEntry) (i : Int) (e : HandleEntry)
    (h : i.toNat < hs.length) : getEntry (setEntry hs i e) i = e := by
  simp [getEntry, setEntry, List.getD_eq_getElem?_getD, List.getElem?_set_self h]

theorem getEntry_set_ne (hs : List HandleEntry) (i j : Int) (e : HandleEntry)
    (h : i.toNat ≠ j.toNat) : getEntry (setEntry hs i e) j = getEntry hs j := by
  simp [getEntry, setEntry, List.getD_eq_getElem?_getD, List.getElem?_set_ne h]

theorem getEntry_append_left (hs : List HandleEntry) (e : HandleEntry) (i : Nat)
    (h : i < hs.length) : getEntry (hs ++ [e]) (i : Int) = getEntry hs (i : Int) := by
  simp [getEntry, List.getD_eq_getElem?_getD, List.getElem?_append_left,
    Int.toNat_natCast, h]

theorem getEntry_append_right (hs : List HandleEntry) (e : HandleEntry) :
    getEntry (hs ++ [e]) (hs.length : Int) = e := by
  simp [getEntry, List.getD_eq_getElem?_getD, Int.toNat_natCast]

theorem getEntry_natCast (hs : List HandleEntry) (i : Nat) :
    getEntry hs (i : Int) = hs.getD i default := by
  simp [getEntry, Int.toNat_natCast]

theorem countP_setEntry (hs : List HandleEntry) (i : Nat) (e : HandleEntry)
    (h : i < hs.length) (p : HandleEntry → Bool) :
    ((setEntry hs (i : Int) e).countP p : Int) =
      (hs.countP p : Int) - (if p (getEntry hs (i : Int)) then 1 else 0) +
        (if p e then 1 else 0) := by
  have hset := List.countP_set p hs i e h
  have hle : (if p hs[i] = true then 1 else 0) ≤ hs.countP p := by
    split
    · exact List.countP_pos_iff.mpr ⟨hs[i], List.getElem_mem h, by assumption⟩
    · exact Nat.zero_le _
  have hget : getEntry hs (i : Int) = hs[i] := by
    simp [getEntry, List.getD_eq_getElem?_getD, Int.toNat_natCast, List.getElem?_eq_getElem h]
  rw [setEntry, Int.toNat_natCast, hset, hget]
  push_cast [Nat.cast_sub hle]
  by_cases h1 : p hs[i] = true <;> by_cases h2 : p e = true <;> simp [h1, h2]

/-! The free list chain: the sequence of slot indices threaded through the
nextFree links, head first. -/

/-- The head of a chain as the dequeue index (-1 when empty). -/
def headIdx : List Nat → Int
  | [] => -1
  | i :: _ => (i : Int)

/-- The last element of a chain as the enqueue index (-1 when empty). -/
def lastIdx (c : List Nat) : Int :=
  match c.getLast? with
  | none => -1
  | some i => (i : Int)

theorem lastIdx_append (c : List Nat) (i : Nat) : lastIdx (c ++ [i]) = (i : Int) := by
  simp [lastIdx, List.getLast?_concat]

theorem lastIdx_single (i : Nat) : lastIdx [i] = (i : Int) := by
  simp [lastIdx]

/-- The links of a chain: each element's nextFree is the following element,
and the last element's nextFree is -1. -/
def chainLinked (hs : List HandleEntry) : List Nat → Prop
  | [] => True
  | [i] => (getEntry hs (i : Int)).nextFree = -1
  | i :: j :: rest => (getEntry hs (i : Int)).nextFree = (j : Int) ∧ chainLinked hs (j :: rest)

theorem chainLinked_congr (hs hs2 : List HandleEntry) (c : List Nat)
    (h : ∀ k ∈ c, (getEntry hs2 (k : Int)).nextFree = (getEntry hs (k : Int)).nextFree)
    (hl : chainLinked hs c) : chainLinked hs2 c := by
  induction c with
  | nil => trivial
  | cons a t ih =>
      cases t with
      | nil => simpa [chainLinked, h a (by simp)] using hl
      | cons b t2 =>
          obtain ⟨h1, h2⟩ := hl
          exact ⟨by rw [h a (by simp)]; exact h1,
            ih (fun k hk => h k (List.mem_cons_of_mem a hk)) h2⟩

theorem chainLinked_tail (hs : List HandleEntry) (i : Nat) (c : List Nat)
    (h : chainLinked hs (i :: c)) : chainLinked hs c := by
  cases c with
  | nil => trivial
  | cons b t => exact h.2

theorem mem_of_getLastQ {c : List Nat} {t : Nat} (h : c.getLast? = some t) : t ∈ c := by
  induction c with
  | nil => simp at h
  | cons a rest ih =>
      cases rest with
      | nil => simp_all
      | cons b t2 =>
          rw [List.getLast?_cons_cons] at h
          exact List.mem_cons_of_mem a (ih h)

theorem chainLinked_push (hs hs2 : List HandleEntry) (c : List Nat) (i t : Nat)
    (hgl : c.getLast? = some t) (hnd : c.Nodup)
    (hkeep : ∀ k ∈ c, k ≠ t →
      (getEntry hs2 (k : Int)).nextFree = (getEntry hs (k : Int)).nextFree)
    (hlast : (getEntry hs2 (t : Int)).nextFree = (i : Int))
    (hi : (getEntry hs2 (i : Int)).nextFree = -1)
    (hlink : chainLinked hs c) : chainLinked hs2 (c ++ [i]) := by
  induction c with
  | nil => simp at hgl
  | cons a rest ih =>
      cases rest with
      | nil =>
          have ha : a = t := by simpa using hgl
          subst ha
          exact ⟨hlast, by simpa [chainLinked] using hi⟩
      | cons b t2 =>
          obtain ⟨h1, h2⟩ := hlink
          rw [List.getLast?_cons_cons] at hgl
          have hmem : a ∉ b :: t2 := (List.nodup_cons.mp hnd).1
          have hane : a ≠ t := fun heq => hmem (heq ▸ mem_of_getLastQ hgl)
          refine ⟨?_, ?_⟩
          · rw [hkeep a (by simp) hane]; exact h1
          · exact ih hgl (List.nodup_cons.mp hnd).2
              (fun k hk hkne => hkeep k (List.mem_cons_of_mem a hk) hkne) h2

theorem getEntry_setN_self (hs : List HandleEntry) (i : Nat) (e : HandleEntry)
    (h : i < hs.length) : getEntry (setEntry hs (i : Int) e) (i : Int) = e :=
  getEntry_set_self hs (i : Int) e (by simpa [Int.toNat_natCast] using h)

theorem getEntry_setN_ne (hs : List HandleEntry) (i j : Nat) (e : HandleEntry)
    (h : i ≠ j) : getEntry (setEntry hs (i : Int) e) (j : Int) = getEntry hs (j : Int) :=
  getEntry_set_ne hs (i : Int) (j : Int) e (by simp [Int.toNat_natCast, h])

theorem headIdx_append (c : List Nat) (i : Nat) (h : c ≠ []) :
    headIdx (c ++ [i]) = headIdx c := by
  cases c with
  | nil => exact absurd rfl h
  | cons a t => simp [headIdx]

/-- Well-formedness of the free list: the chain c lists exactly the Free
slots, with the dequeue index at its head, the enqueue index at its tail, the
nextFree links intact in FIFO order, and occupied slots never linked. -/
structure FreeListOk (s : EntityState) (c : List Nat) : Prop where
  empty_iff : s.freeListIsEmpty = c.isEmpty
  dequeue_eq : s.freeListDequeue = headIdx c
  enqueue_eq : s.freeListEnqueue = lastIdx c
  nodup : c.Nodup
  mem_lt : ∀ i ∈ c, i < s.handles.length
  linked : chainLinked s.handles c
  free_iff : ∀ i, i < s.handles.length →
    ((getEntry s.handles (i : Int)).flags = HandleFlags.free ↔ i ∈ c)
  unlinked : ∀ i, i < s.handles.length → i ∉ c →
    (getEntry s.handles (i : Int)).nextFree = -1

/-- The commands of the queue that refer to slot i. -/
def filterSlot (cs : List EntityCommand) (i : Nat) : List EntityCommand :=
  cs.filter (fun c => decide (c.handle.identifier = (i : Int) + 1))

theorem filterSlot_append (cs ds : List EntityCommand) (i : Nat) :
    filterSlot (cs ++ ds) i = filterSlot cs i ++ filterSlot ds i :=
  List.filter_append ..

/-- The pending commands a slot with given flags and stored handle can carry,
one case per lifecycle stage.  The Free case admits a single stale Destroy
command (same slot, older handle value): this arises only while a drain is in
progress, after a finalize veto freed the slot. -/
def PendOk (f : HandleFlags) (h : EntityHandle) (q : List EntityCommand) : Prop :=
  if f = HandleFlags.free then
    q = [] ∨ ∃ h2 : EntityHandle, q = [⟨EntityCommandType.destroy, h2⟩] ∧
      h2.identifier = h.identifier ∧ h2 ≠ h
  else if f = ⟨true, false, false⟩ then q = [⟨EntityCommandType.create, h⟩]
  else if f = ⟨true, false, true⟩ then
    q = [⟨EntityCommandType.create, h⟩, ⟨EntityCommandType.destroy, h⟩]
  else if f = ⟨true, true, false⟩ then q = []
  else if f = ⟨true, true, true⟩ then q = [⟨EntityCommandType.destroy, h⟩]
  else False

/-- The master invariant of reachable entity system states (holding between
operations, outside an in-progress drain). -/
structure Inv (s : EntityState) : Prop where
  init : s.initialized = true
  ids : ∀ i, i < s.handles.length →
    (getEntry s.handles (i : Int)).handle.identifier = (i : Int) + 1
  count_eq : s.entityCount = (countActive s.handles : Int)
  cmd_bound : ∀ c ∈ s.commands, ∃ i, i < s.handles.length ∧
    c.handle.identifier = (i : Int) + 1
  pend : ∀ i, i < s.handles.length →
    PendOk (getEntry s.handles (i : Int)).flags (getEntry s.handles (i : Int)).handle
      (filterSlot s.commands i)
  pend_free : ∀ i, i < s.handles.length →
    (getEntry s.handles (i : Int)).flags = HandleFlags.free → filterSlot s.commands i = []
  free_list : ∃ c, FreeListOk s c

/-- The invariant carried through the ProcessCommands drain, relative to the
commands remaining to be processed. -/
structure DrainInv (s : EntityState) (rest : List EntityCommand) : Prop where
  init : s.initialized = true
  cmds : s.commands = []
  ids : ∀ i, i < s.handles.length →
    (getEntry s.handles (i : Int)).handle.identifier = (i : Int) + 1
  count_eq : s.entityCount = (countActive s.handles : Int)
  cmd_bound : ∀ c ∈ rest, ∃ i, i < s.handles.length ∧
    c.handle.identifier = (i : Int) + 1
  pend : ∀ i, i < s.handles.length →
    PendOk (getEntry s.handles (i : Int)).flags (getEntry s.handles (i : Int)).handle
      (filterSlot rest i)
  free_list : ∃ c, FreeListOk s c

/-! Effect lemmas for the slot table operations. -/

theorem FreeListOk_update (s : EntityState) (c : List Nat) (hfl : FreeListOk s c) (i : Nat)
    (e : HandleEntry) (hic : i ∉ c)
    (hnew : e.flags ≠ HandleFlags.free) (hnf : e.nextFree = -1) :
    FreeListOk { s with handles := setEntry s.handles (i : Int) e } c := by
  refine ⟨hfl.empty_iff, hfl.dequeue_eq, hfl.enqueue_eq, hfl.nodup, ?_, ?_, ?_, ?_⟩
  · intro j hj
    simpa [length_setEntry] using hfl.mem_lt j hj
  · exact chainLinked_congr s.handles _ c
      (fun k hk => by rw [getEntry_setN_ne s.handles i k e (fun h => hic (h ▸ hk))])
      hfl.linked
  · intro j hj
    rw [show ({ s with handles := setEntry s.handles (i : Int) e } : EntityState).handles =
      setEntry s.handles (i : Int) e from rfl, length_setEntry] at hj
    by_cases hji : j = i
    · subst hji
      rw [show ({ s with handles := setEntry s.handles (j : Int) e } : EntityState).handles =
        setEntry s.handles (j : Int) e from rfl, getEntry_setN_self s.handles j e hj]
      exact iff_of_false hnew hic
    · rw [show ({ s with handles := setEntry s.handles (i : Int) e } : EntityState).handles =
        setEntry s.handles (i : Int) e from rfl, getEntry_setN_ne s.handles i j e (Ne.symm hji)]
      exact hfl.free_iff j hj
  · intro j hj hjc
    rw [show ({ s with handles := setEntry s.handles (i : Int) e } : EntityState).handles =
      setEntry s.handles (i : Int) e from rfl, length_setEntry] at hj
    by_cases hji : j = i
    · subst hji
      rw [show ({ s with handles := setEntry s.handles (j : Int) e } : EntityState).handles =
        setEntry s.handles (j : Int) e from rfl, getEntry_setN_self s.handles j e hj]
      exact hnf
    · rw [show ({ s with handles := setEntry s.handles (i : Int) e } : EntityState).handles =
        setEntry s.handles (i : Int) e from rfl, getEntry_setN_ne s.handles i j e (Ne.symm hji)]
      exact hfl.unlinked j hj hjc

/-- Effect of FreeHandle on an occupied slot i: the slot becomes Free with its
version incremented, it is appended at the tail of the free list chain, all
other slots keep their handle and flags, and the bookkeeping fields of the
state are untouched. -/
theorem freeHandle_spec (s : EntityState) (c : List Nat) (hfl : FreeListOk s c) (i : Nat)
    (hi : i < s.handles.length)
    (hocc : (getEntry s.handles (i : Int)).flags ≠ HandleFlags.free) :
    (freeHandle (i : Int) s).handles.length = s.handles.length ∧
    getEntry (freeHandle (i : Int) s).handles (i : Int) =
      ⟨⟨(getEntry s.handles (i : Int)).handle.identifier,
        (getEntry s.handles (i : Int)).handle.version + 1⟩, HandleFlags.free, -1⟩ ∧
    (∀ j, j < s.handles.length → j ≠ i →
      (getEntry (freeHandle (i : Int) s).handles (j : Int)).handle =
        (getEntry s.handles (j : Int)).handle ∧
      (getEntry (freeHandle (i : Int) s).handles (j : Int)).flags =
        (getEntry s.handles (j : Int)).flags) ∧
    (freeHandle (i : Int) s).commands = s.commands ∧
    (freeHandle (i : Int) s).entityCount = s.entityCount ∧
    (freeHandle (i : Int) s).initialized = s.initialized ∧
    FreeListOk (freeHandle (i : Int) s) (c ++ [i]) ∧
    (countActive (freeHandle (i : Int) s).handles : Int) =
      (countActive s.handles : Int) -
        (if (getEntry s.handles (i : Int)).flags.active then 1 else 0) := by
  have hic : i ∉ c := fun h => hocc ((hfl.free_iff i hi).mpr h)
  have hnf : (getEntry s.handles (i : Int)).nextFree = -1 := hfl.unlinked i hi hic
  by_cases hemp : s.freeListIsEmpty = true
  · -- the free list was empty: the freed slot becomes the whole chain
    have hc : c = [] := by
      have h1 := hfl.empty_iff
      rw [hemp] at h1
      exact List.isEmpty_iff.mp h1.symm
    subst hc
    have hdef : freeHandle (i : Int) s =
        { s with
          handles := setEntry s.handles (i : Int)
            ⟨⟨(getEntry s.handles (i : Int)).handle.identifier,
              (getEntry s.handles (i : Int)).handle.version + 1⟩, HandleFlags.free,
              (getEntry s.handles (i : Int)).nextFree⟩,
          freeListDequeue := (i : Int), freeListEnqueue := (i : Int),
          freeListIsEmpty := false } := by
      simp [freeHandle, hemp]
    rw [hdef, hnf]
    refine ⟨length_setEntry .., getEntry_setN_self _ i _ hi, ?_, rfl, rfl, rfl, ?_, ?_⟩
    · intro j hj hji
      rw [getEntry_setN_ne _ i j _ (Ne.symm hji)]
      exact ⟨rfl, rfl⟩
    · refine ⟨by simp, by simp [headIdx], by simp [lastIdx_single], by simp, ?_, ?_, ?_, ?_⟩
      · intro j hj
        simp only [List.nil_append, List.mem_singleton] at hj
        subst hj
        show j < (setEntry s.handles (j : Int) _).length
        rw [length_setEntry]
        exact hi
      · show chainLinked _ [i]
        show (getEntry (setEntry s.handles (i : Int) _) (i : Int)).nextFree = -1
        rw [getEntry_setN_self _ i _ hi]
      · intro j hj
        rw [length_setEntry] at hj
        by_cases hji : j = i
        · subst hji
          rw [getEntry_setN_self _ j _ hj]
          simp
        · rw [getEntry_setN_ne _ i j _ (Ne.symm hji)]
          have := hfl.free_iff j hj
          simp only [List.not_mem_nil, iff_false] at this
          simp [this, hji]
      · intro j hj hjc
        rw [length_setEntry] at hj
        by_cases hji : j = i
        · subst hji
          rw [getEntry_setN_self _ j _ hj]
        · rw [getEntry_setN_ne _ i j _ (Ne.symm hji)]
          exact hfl.unlinked j hj (by simp)
    · show ((setEntry s.handles (i : Int) _).countP _ : Int) = _
      rw [countP_setEntry s.handles i _ hi]
      simp [HandleFlags.free, countActive]
  · -- the free list was not empty: append the freed slot behind the old tail
    have hcne : c ≠ [] := by
      intro h
      subst h
      have h1 := hfl.empty_iff
      simp at h1
      exact hemp h1
    obtain ⟨t, hgl⟩ : ∃ t, c.getLast? = some t :=
      ⟨c.getLast hcne, List.getLast?_eq_getLast_of_ne_nil hcne⟩
    have htc : t ∈ c := mem_of_getLastQ hgl
    have hti : t ≠ i := fun h => hic (h ▸ htc)
    have htlen : t < s.handles.length := hfl.mem_lt t htc
    have henq : s.freeListEnqueue = (t : Int) := by
      rw [hfl.enqueue_eq]
      simp [lastIdx, hgl]
    have hdef : freeHandle (i : Int) s =
        { s with
          handles := setNextFree
            (setEntry s.handles (i : Int)
              ⟨⟨(getEntry s.handles (i : Int)).handle.identifier,
                (getEntry s.handles (i : Int)).handle.version + 1⟩, HandleFlags.free,
                (getEntry s.handles (i : Int)).nextFree⟩)
            s.freeListEnqueue (i : Int),
          freeListEnqueue := (i : Int) } := by
      simp [freeHandle, hemp]
    have ht1 : getEntry (setEntry s.handles (i : Int)
        ⟨⟨(getEntry s.handles (i : Int)).handle.identifier,
          (getEntry s.handles (i : Int)).handle.version + 1⟩, HandleFlags.free,
          -1⟩) (t : Int) = getEntry s.handles (t : Int) :=
      getEntry_setN_ne _ i t _ (Ne.symm hti)
    rw [hdef, hnf, henq]
    simp only [setNextFree]
    rw [ht1]
    have hlen1 : i < (setEntry s.handles (i : Int)
        ⟨⟨(getEntry s.handles (i : Int)).handle.identifier,
          (getEntry s.handles (i : Int)).handle.version + 1⟩, HandleFlags.free, -1⟩).length := by
      rw [length_setEntry]; exact hi
    have hgi : getEntry (setEntry (setEntry s.handles (i : Int)
        ⟨⟨(getEntry s.handles (i : Int)).handle.identifier,
          (getEntry s.handles (i : Int)).handle.version + 1⟩, HandleFlags.free, -1⟩)
        (t : Int) { getEntry s.handles (t : Int) with nextFree := (i : Int) }) (i : Int) =
        ⟨⟨(getEntry s.handles (i : Int)).handle.identifier,
          (getEntry s.handles (i : Int)).handle.version + 1⟩, HandleFlags.free, -1⟩ := by
      rw [getEntry_setN_ne _ t i _ hti, getEntry_setN_self _ i _ hi]
    refine ⟨by rw [length_setEntry, length_setEntry], hgi, ?_, by trivial, by trivial,
      by trivial, ?_, ?_⟩
    · intro j hj hji
      by_cases hjt : j = t
      · subst hjt
        rw [getEntry_setN_self _ j _ (by rw [length_setEntry]; exact htlen)]
        exact ⟨rfl, rfl⟩
      · rw [getEntry_setN_ne _ t j _ (Ne.symm hjt), getEntry_setN_ne _ i j _ (Ne.symm hji)]
        exact ⟨rfl, rfl⟩
    · refine ⟨?_, ?_, by simp [lastIdx_append], ?_, ?_, ?_, ?_, ?_⟩
      · show s.freeListIsEmpty = (c ++ [i]).isEmpty
        simp only [Bool.not_eq_true] at hemp
        rw [hemp]
        symm
        simp [List.isEmpty_iff]
      · show s.freeListDequeue = headIdx (c ++ [i])
        rw [headIdx_append c i hcne]
        exact hfl.dequeue_eq
      · simp [List.nodup_append, hfl.nodup, hic]
      · intro j hj
        rw [length_setEntry, length_setEntry]
        rcases List.mem_append.mp hj with h | h
        · exact hfl.mem_lt j h
        · simp at h
          subst h
          exact hi
      · refine chainLinked_push s.handles _ c i t hgl hfl.nodup ?_ ?_ ?_ hfl.linked
        · intro k hk hkt
          have hki : k ≠ i := fun h => hic (h ▸ hk)
          rw [getEntry_setN_ne _ t k _ (Ne.symm hkt), getEntry_setN_ne _ i k _ (Ne.symm hki)]
        · rw [getEntry_setN_self _ t _ (by rw [length_setEntry]; exact htlen)]
        · rw [hgi]
      · intro j hj
        rw [length_setEntry, length_setEntry] at hj
        by_cases hji : j = i
        · subst hji
          rw [hgi]
          simp
        · by_cases hjt : j = t
          · subst hjt
            rw [getEntry_setN_self _ j _ (by rw [length_setEntry]; exact htlen)]
            have hfe : ({ getEntry s.handles (j : Int) with nextFree := (i : Int) } :
                HandleEntry).flags = (getEntry s.handles (j : Int)).flags := rfl
            rw [hfe, hfl.free_iff j hj]
            simp [htc]
          · rw [getEntry_setN_ne _ t j _ (Ne.symm hjt), getEntry_setN_ne _ i j _ (Ne.symm hji)]
            rw [hfl.free_iff j hj]
            simp [hji]
      · intro j hj hjc
        rw [length_setEntry, length_setEntry] at hj
        simp only [List.mem_append, List.mem_singleton, not_or] at hjc
        obtain ⟨hjc1, hji⟩ := hjc
        have hjt : j ≠ t := fun h => hjc1 (h ▸ htc)
        rw [getEntry_setN_ne _ t j _ (Ne.symm hjt), getEntry_setN_ne _ i j _ (Ne.symm hji)]
        exact hfl.unlinked j hj hjc1
    · show ((setEntry _ (t : Int) _).countP _ : Int) = _
      rw [countP_setEntry _ t _ (by rw [length_setEntry]; exact htlen)]
      rw [getEntry_setN_ne _ i t _ (Ne.symm hti)]
      rw [countP_setEntry s.handles i _ hi]
      simp only [countActive]
      by_cases h1 : (getEntry s.handles (t : Int)).flags.active = true <;>
        by_cases h2 : (getEntry s.handles (i : Int)).flags.active = true <;>
          simp [h1, h2, HandleFlags.free]

theorem FreeListOk_of_eq (s s2 : EntityState) (c : List Nat) (h : FreeListOk s c)
    (h1 : s2.handles = s.handles) (h2 : s2.freeListDequeue = s.freeListDequeue)
    (h3 : s2.freeListEnqueue = s.freeListEnqueue)
    (h4 : s2.freeListIsEmpty = s.freeListIsEmpty) : FreeListOk s2 c := by
  refine ⟨?_, ?_, ?_, h.nodup, ?_, ?_, ?_, ?_⟩
  · rw [h4]; exact h.empty_iff
  · rw [h2]; exact h.dequeue_eq
  · rw [h3]; exact h.enqueue_eq
  · rw [h1]; exact h.mem_lt
  · rw [h1]; exact h.linked
  · rw [h1]; exact h.free_iff
  · rw [h1]; exact h.unlinked

/-- Effect of DestroyHandle on an occupied slot i: one destroy notification
with the stored handle, the slot freed with its version incremented and
appended to the free list, the live counter decremented, everything else
untouched. -/
theorem destroyHandle_spec (s : EntityState) (c : List Nat) (hfl : FreeListOk s c) (i : Nat)
    (hi : i < s.handles.length)
    (hocc : (getEntry s.handles (i : Int)).flags ≠ HandleFlags.free) :
    (destroyHandle (i : Int) s).2 =
      [EntityEvent.destroy (getEntry s.handles (i : Int)).handle] ∧
    (destroyHandle (i : Int) s).1.handles.length = s.handles.length ∧
    getEntry (destroyHandle (i : Int) s).1.handles (i : Int) =
      ⟨⟨(getEntry s.handles (i : Int)).handle.identifier,
        (getEntry s.handles (i : Int)).handle.version + 1⟩, HandleFlags.free, -1⟩ ∧
    (∀ j, j < s.handles.length → j ≠ i →
      (getEntry (destroyHandle (i : Int) s).1.handles (j : Int)).handle =
        (getEntry s.handles (j : Int)).handle ∧
      (getEntry (destroyHandle (i : Int) s).1.handles (j : Int)).flags =
        (getEntry s.handles (j : Int)).flags) ∧
    (destroyHandle (i : Int) s).1.commands = s.commands ∧
    (destroyHandle (i : Int) s).1.entityCount = s.entityCount - 1 ∧
    (destroyHandle (i : Int) s).1.initialized = s.initialized ∧
    FreeListOk (destroyHandle (i : Int) s).1 (c ++ [i]) ∧
    (countActive (destroyHandle (i : Int) s).1.handles : Int) =
      (countActive s.handles : Int) -
        (if (getEntry s.handles (i : Int)).flags.active then 1 else 0) := by
  obtain ⟨hlen, hei, hothers, hcmd, hcnt, hinit, hflk, hca⟩ := freeHandle_spec s c hfl i hi hocc
  have hfst : (destroyHandle (i : Int) s).1 =
      { freeHandle (i : Int) s with
        entityCount := (freeHandle (i : Int) s).entityCount - 1 } := rfl
  refine ⟨rfl, ?_, ?_, ?_, ?_, ?_, ?_, ?_, ?_⟩
  · rw [hfst]; exact hlen
  · rw [hfst]; exact hei
  · rw [hfst]; exact hothers
  · rw [hfst]; exact hcmd
  · rw [hfst]; show (freeHandle (i : Int) s).entityCount - 1 = s.entityCount - 1; rw [hcnt]
  · rw [hfst]; exact hinit
  · exact FreeListOk_of_eq _ _ _ hflk (by rw [hfst]) (by rw [hfst]) (by rw [hfst]) (by rw [hfst])
  · rw [hfst]; exact hca

/-- Effect of CreateHandle when the finalize vote passes (no subscribers or
all invoked subscribers return true): the slot becomes Active, the live
counter is incremented, one create notification is emitted. -/
theorem createHandle_ok (subs : List (EntityHandle → Bool)) (s : EntityState) (c : List Nat)
    (hfl : FreeListOk s c) (i : Nat) (hi : i < s.handles.length)
    (hocc : (getEntry s.handles (i : Int)).flags ≠ HandleFlags.free)
    (hvote : ¬ (subs.isEmpty = false ∧
      collectWhileTrue subs (getEntry s.handles (i : Int)).handle = false)) :
    (createHandle subs (i : Int) s).2 =
      [EntityEvent.create (getEntry s.handles (i : Int)).handle] ∧
    (createHandle subs (i : Int) s).1.handles.length = s.handles.length ∧
    getEntry (createHandle subs (i : Int) s).1.handles (i : Int) =
      { getEntry s.handles (i : Int) with
        flags := { (getEntry s.handles (i : Int)).flags with active := true } } ∧
    (∀ j, j < s.handles.length → j ≠ i →
      getEntry (createHandle subs (i : Int) s).1.handles (j : Int) =
        getEntry s.handles (j : Int)) ∧
    (createHandle subs (i : Int) s).1.commands = s.commands ∧
    (createHandle subs (i : Int) s).1.entityCount = s.entityCount + 1 ∧
    (createHandle subs (i : Int) s).1.initialized = s.initialized ∧
    FreeListOk (createHandle subs (i : Int) s).1 c ∧
    (countActive (createHandle subs (i : Int) s).1.handles : Int) =
      (countActive s.handles : Int) +
        (if (getEntry s.handles (i : Int)).flags.active then 0 else 1) := by
  have hic : i ∉ c := fun h => hocc ((hfl.free_iff i hi).mpr h)
  have hnf : (getEntry s.handles (i : Int)).nextFree = -1 := hfl.unlinked i hi hic
  have hdef : createHandle subs (i : Int) s =
      ({ s with
          entityCount := s.entityCount + 1,
          handles := setEntry s.handles (i : Int)
            { getEntry s.handles (i : Int) with
              flags := { (getEntry s.handles (i : Int)).flags with active := true } } },
        [EntityEvent.create (getEntry s.handles (i : Int)).handle]) := by
    simp only [createHandle]
    rw [if_neg hvote]
  rw [hdef]
  refine ⟨rfl, length_setEntry .., getEntry_setN_self _ i _ hi, ?_, rfl, rfl, rfl, ?_, ?_⟩
  · intro j hj hji
    exact getEntry_setN_ne _ i j _ (Ne.symm hji)
  · refine FreeListOk_update
      { s with entityCount := s.entityCount + 1 } c
      (FreeListOk_of_eq _ _ _ hfl rfl rfl rfl rfl) i _ hic ?_ ?_
    · intro h
      have h2 := congrArg HandleFlags.active h
      simp [HandleFlags.free] at h2
    · exact hnf
  · show ((setEntry s.handles (i : Int) _).countP _ : Int) = _
    rw [countP_setEntry s.handles i _ hi]
    by_cases h2 : (getEntry s.handles (i : Int)).flags.active = true <;>
      simp [h2, countActive]

/-- Effect of CreateHandle when the finalize vote fails: the destroy sequence
runs on the slot instead of activation, so the slot is freed with its version
incremented, exactly one destroy notification is emitted and no create
notification, and the net live counter change is zero. -/
theorem createHandle_veto (subs : List (EntityHandle → Bool)) (s : EntityState) (c : List Nat)
    (hfl : FreeListOk s c) (i : Nat) (hi : i < s.handles.length)
    (hocc : (getEntry s.handles (i : Int)).flags ≠ HandleFlags.free)
    (hsub : subs.isEmpty = false)
    (hvote : collectWhileTrue subs (getEntry s.handles (i : Int)).handle = false) :
    (createHandle subs (i : Int) s).2 =
      [EntityEvent.destroy (getEntry s.handles (i : Int)).handle] ∧
    (createHandle subs (i : Int) s).1.handles.length = s.handles.length ∧
    getEntry (createHandle subs (i : Int) s).1.handles (i : Int) =
      ⟨⟨(getEntry s.handles (i : Int)).handle.identifier,
        (getEntry s.handles (i : Int)).handle.version + 1⟩, HandleFlags.free, -1⟩ ∧
    (∀ j, j < s.handles.length → j ≠ i →
      (getEntry (createHandle subs (i : Int) s).1.handles (j : Int)).handle =
        (getEntry s.handles (j : Int)).handle ∧
      (getEntry (createHandle subs (i : Int) s).1.handles (j : Int)).flags =
        (getEntry s.handles (j : Int)).flags) ∧
    (createHandle subs (i : Int) s).1.commands = s.commands ∧
    (createHandle subs (i : Int) s).1.entityCount = s.entityCount ∧
    (createHandle subs (i : Int) s).1.initialized = s.initialized ∧
    FreeListOk (createHandle subs (i : Int) s).1 (c ++ [i]) ∧
    (countActive (createHandle subs (i : Int) s).1.handles : Int) =
      (countActive s.handles : Int) -
        (if (getEntry s.handles (i : Int)).flags.active then 1 else 0) := by
  have hdef : createHandle subs (i : Int) s =
      destroyHandle (i : Int) { s with entityCount := s.entityCount + 1 } := by
    simp only [createHandle]
    rw [if_pos]
    exact ⟨hsub, hvote⟩
  have hfl1 : FreeListOk { s with entityCount := s.entityCount + 1 } c :=
    FreeListOk_of_eq _ _ _ hfl rfl rfl rfl rfl
  obtain ⟨hev, hlen, hei, hothers, hcmd, hcnt, hinit, hflk, hca⟩ :=
    destroyHandle_spec { s with entityCount := s.entityCount + 1 } c hfl1 i hi hocc
  rw [hdef]
  refine ⟨hev, hlen, hei, hothers, hcmd, ?_, hinit, hflk, hca⟩
  rw [hcnt]
  show s.entityCount + 1 - 1 = s.entityCount
  ring

/-- Effect of AllocateHandle when the free list is empty (the only situation
in which the source calls it): a fresh Free slot with identifier equal to the
new table size and version 0 is appended and becomes the whole free list. -/
theorem allocateHandle_spec (s : EntityState) (hfl : FreeListOk s [])
    (hemp : s.freeListIsEmpty = true) :
    (allocateHandle s).handles = s.handles ++
      [⟨⟨(s.handles.length : Int) + 1, 0⟩, HandleFlags.free, -1⟩] ∧
    (allocateHandle s).commands = s.commands ∧
    (allocateHandle s).entityCount = s.entityCount ∧
    (allocateHandle s).initialized = s.initialized ∧
    (allocateHandle s).freeListDequeue = (s.handles.length : Int) ∧
    (allocateHandle s).freeListEnqueue = (s.handles.length : Int) ∧
    FreeListOk (allocateHandle s) [s.handles.length] := by
  have hdef : allocateHandle s =
      { s with
        handles := s.handles ++ [⟨⟨(s.handles.length : Int) + 1, 0⟩, HandleFlags.free, -1⟩],
        freeListDequeue := (s.handles.length : Int),
        freeListEnqueue := (s.handles.length : Int),
        freeListIsEmpty := false } := by
    simp [allocateHandle, hemp]
  rw [hdef]
  refine ⟨rfl, rfl, rfl, rfl, rfl, rfl, ?_⟩
  refine ⟨by simp, by simp [headIdx], by simp [lastIdx_single], by simp, ?_, ?_, ?_, ?_⟩
  · intro j hj
    simp only [List.mem_singleton] at hj
    subst hj
    simp
  · show (getEntry (s.handles ++ [_]) ((s.handles.length : Nat) : Int)).nextFree = -1
    rw [getEntry_append_right]
  · intro j hj
    simp only [List.length_append, List.length_singleton] at hj
    by_cases hjl : j = s.handles.length
    · subst hjl
      rw [getEntry_append_right]
      simp [HandleFlags.free]
    · have hjlt : j < s.handles.length := by omega
      rw [getEntry_append_left _ _ _ hjlt]
      have h1 := hfl.free_iff j hjlt
      simp only [List.not_mem_nil, iff_false] at h1
      simp [h1, hjl]
  · intro j hj hjc
    simp only [List.length_append, List.length_singleton] at hj
    simp only [List.mem_singleton] at hjc
    have hjlt : j < s.handles.length := by omega
    rw [getEntry_append_left _ _ _ hjlt]
    exact hfl.unlinked j hjlt (by simp)

/-- Effect of RetrieveHandle: a Free slot index i is popped from the head of
the free list (allocating first when the list is empty); the popped slot keeps
its stored handle (a fresh slot carries identifier tableSize + 1 and version
0), stays Free with a cleared link, and the remaining chain c2 is again a
valid free list as soon as the caller occupies the popped slot. -/
theorem retrieveHandle_spec (s : EntityState) (c : List Nat) (hfl : FreeListOk s c) :
    ∃ (i : Nat) (c2 : List Nat),
      retrieveHandle s = ((i : Int), (retrieveHandle s).2) ∧
      (i < s.handles.length ∧ (retrieveHandle s).2.handles.length = s.handles.length ∨
        i = s.handles.length ∧ (retrieveHandle s).2.handles.length = s.handles.length + 1) ∧
      (∀ j, j < s.handles.length → j ≠ i →
        getEntry (retrieveHandle s).2.handles (j : Int) = getEntry s.handles (j : Int)) ∧
      (getEntry (retrieveHandle s).2.handles (i : Int)).flags = HandleFlags.free ∧
      (getEntry (retrieveHandle s).2.handles (i : Int)).nextFree = -1 ∧
      (i < s.handles.length →
        (getEntry (retrieveHandle s).2.handles (i : Int)).handle =
          (getEntry s.handles (i : Int)).handle) ∧
      (i = s.handles.length →
        (getEntry (retrieveHandle s).2.handles (i : Int)).handle =
          ⟨(s.handles.length : Int) + 1, 0⟩) ∧
      (i < s.handles.length →
        (getEntry s.handles (i : Int)).flags = HandleFlags.free) ∧
      (retrieveHandle s).2.commands = s.commands ∧
      (retrieveHandle s).2.entityCount = s.entityCount ∧
      (retrieveHandle s).2.initialized = s.initialized ∧
      (countActive (retrieveHandle s).2.handles : Int) = (countActive s.handles : Int) ∧
      i ∉ c2 ∧ (∀ j ∈ c2, j ∈ c) ∧
      (∀ e : HandleEntry, e.flags ≠ HandleFlags.free → e.nextFree = -1 →
        FreeListOk { (retrieveHandle s).2 with
          handles := setEntry (retrieveHandle s).2.handles (i : Int) e } c2) := by
  by_cases hemp : s.freeListIsEmpty = true
  · -- empty free list: allocate a fresh slot, then pop it
    have hc : c = [] := by
      have h1 := hfl.empty_iff
      rw [hemp] at h1
      exact List.isEmpty_iff.mp h1.symm
    subst hc
    obtain ⟨hah, hac, hacnt, hai, had, hae, hafl⟩ := allocateHandle_spec s hfl hemp
    have hcond : (allocateHandle s).freeListDequeue = (allocateHandle s).freeListEnqueue := by
      rw [had, hae]
    have hdef : retrieveHandle s = ((allocateHandle s).freeListDequeue,
        { allocateHandle s with
          freeListDequeue := -1
          freeListEnqueue := -1
          freeListIsEmpty := true }) := by
      simp [retrieveHandle, hemp, hcond]
    refine ⟨s.handles.length, [], ?_, ?_, ?_, ?_, ?_, ?_, ?_, ?_, ?_, ?_, ?_, ?_, by simp, by simp, ?_⟩
    · rw [hdef, had]
    · right
      refine ⟨rfl, ?_⟩
      rw [hdef]
      show (allocateHandle s).handles.length = s.handles.length + 1
      rw [hah]
      simp
    · intro j hj hji
      rw [hdef]
      show getEntry (allocateHandle s).handles (j : Int) = getEntry s.handles (j : Int)
      rw [hah]
      exact getEntry_append_left _ _ _ hj
    · rw [hdef]
      show (getEntry (allocateHandle s).handles _).flags = HandleFlags.free
      rw [hah, getEntry_append_right]
    · rw [hdef]
      show (getEntry (allocateHandle s).handles _).nextFree = -1
      rw [hah, getEntry_append_right]
    · intro hlt
      omega
    · intro _
      rw [hdef]
      show (getEntry (allocateHandle s).handles _).handle = _
      rw [hah, getEntry_append_right]
    · intro hlt
      omega
    · rw [hdef]
      show (allocateHandle s).commands = s.commands
      exact hac
    · rw [hdef]
      show (allocateHandle s).entityCount = s.entityCount
      exact hacnt
    · rw [hdef]
      show (allocateHandle s).initialized = s.initialized
      exact hai
    · rw [hdef]
      show (countActive (allocateHandle s).handles : Int) = _
      rw [hah]
      simp [countActive, List.countP_append, HandleFlags.free]
    · intro e hene henf
      have hkey : FreeListOk
          { s with
            handles := setEntry (s.handles ++
              [⟨⟨(s.handles.length : Int) + 1, 0⟩, HandleFlags.free, -1⟩])
              ((s.handles.length : Nat) : Int) e
            freeListDequeue := -1
            freeListEnqueue := -1
            freeListIsEmpty := true } [] := by
        refine ⟨by simp, by simp [headIdx], by simp [lastIdx], by simp, by simp,
          trivial, ?_, ?_⟩
        · intro j hj
          simp only [length_setEntry, List.length_append, List.length_singleton] at hj
          show (getEntry (setEntry (s.handles ++ [_]) _ e) (j : Int)).flags =
            HandleFlags.free ↔ j ∈ ([] : List Nat)
          simp only [List.not_mem_nil, iff_false]
          by_cases hjl : j = s.handles.length
          · subst hjl
            rw [getEntry_setN_self _ s.handles.length e (by simp)]
            exact hene
          · have hjlt : j < s.handles.length := by omega
            rw [getEntry_setN_ne _ s.handles.length j e (fun h => hjl h.symm),
              getEntry_append_left _ _ _ hjlt]
            have h1 := hfl.free_iff j hjlt
            simp only [List.not_mem_nil, iff_false] at h1
            exact h1
        · intro j hj _
          simp only [length_setEntry, List.length_append, List.length_singleton] at hj
          show (getEntry (setEntry (s.handles ++ [_]) _ e) (j : Int)).nextFree = -1
          by_cases hjl : j = s.handles.length
          · subst hjl
            rw [getEntry_setN_self _ s.handles.length e (by simp)]
            exact henf
          · have hjlt : j < s.handles.length := by omega
            rw [getEntry_setN_ne _ s.handles.length j e (fun h => hjl h.symm),
              getEntry_append_left _ _ _ hjlt]
            exact hfl.unlinked j hjlt (by simp)
      rw [hdef]
      refine FreeListOk_of_eq _ _ _ hkey ?_ rfl rfl rfl
      show setEntry (allocateHandle s).handles _ e = _
      rw [hah]
  · -- nonempty free list: pop the head of the chain
    have hcne : c ≠ [] := by
      intro h
      subst h
      have h1 := hfl.empty_iff
      simp at h1
      exact hemp h1
    cases c with
    | nil => exact absurd rfl hcne
    | cons i0 ctail =>
        have hd : s.freeListDequeue = (i0 : Int) := hfl.dequeue_eq
        have hi0lt : i0 < s.handles.length := hfl.mem_lt i0 (by simp)
        have hi0free : (getEntry s.handles (i0 : Int)).flags = HandleFlags.free :=
          (hfl.free_iff i0 hi0lt).mpr (by simp)
        cases ctail with
        | nil =>
            -- single element chain: the queue becomes empty
            have he : s.freeListEnqueue = (i0 : Int) := by
              rw [hfl.enqueue_eq, lastIdx_single]
            have hcond : s.freeListDequeue = s.freeListEnqueue := by rw [hd, he]
            have hnf0 : (getEntry s.handles (i0 : Int)).nextFree = -1 := hfl.linked
            have hdef : retrieveHandle s = (s.freeListDequeue,
                { s with
                  freeListDequeue := -1
                  freeListEnqueue := -1
                  freeListIsEmpty := true }) := by
              simp [retrieveHandle, hemp, hcond]
            refine ⟨i0, [], ?_, ?_, ?_, ?_, ?_, ?_, ?_, ?_, ?_, ?_, ?_, ?_, by simp, by simp, ?_⟩
            · rw [hdef, hd]
            · left
              exact ⟨hi0lt, by rw [hdef]⟩
            · intro j hj hji
              rw [hdef]
            · rw [hdef]
              exact hi0free
            · rw [hdef]
              exact hnf0
            · intro _
              rw [hdef]
            · intro hieq
              omega
            · intro _
              exact hi0free
            · rw [hdef]
            · rw [hdef]
            · rw [hdef]
            · rw [hdef]
            · intro e hene henf
              have hkey : FreeListOk
                  { s with
                    handles := setEntry s.handles (i0 : Int) e
                    freeListDequeue := -1
                    freeListEnqueue := -1
                    freeListIsEmpty := true } [] := by
                refine ⟨by simp, by simp [headIdx], by simp [lastIdx], by simp, by simp,
                  trivial, ?_, ?_⟩
                · intro j hj
                  simp only [length_setEntry] at hj
                  show (getEntry (setEntry s.handles (i0 : Int) e) (j : Int)).flags =
                    HandleFlags.free ↔ j ∈ ([] : List Nat)
                  simp only [List.not_mem_nil, iff_false]
                  by_cases hji : j = i0
                  · subst hji
                    rw [getEntry_setN_self _ j e hj]
                    exact hene
                  · rw [getEntry_setN_ne _ i0 j e (fun h => hji h.symm)]
                    have h1 := hfl.free_iff j hj
                    simp only [List.mem_singleton] at h1
                    rw [h1]
                    exact hji
                · intro j hj _
                  simp only [length_setEntry] at hj
                  show (getEntry (setEntry s.handles (i0 : Int) e) (j : Int)).nextFree = -1
                  by_cases hji : j = i0
                  · subst hji
                    rw [getEntry_setN_self _ j e hj]
                    exact henf
                  · rw [getEntry_setN_ne _ i0 j e (fun h => hji h.symm)]
                    exact hfl.unlinked j hj (by simp [hji])
              rw [hdef]
              exact FreeListOk_of_eq _ _ _ hkey rfl rfl rfl rfl
        | cons j0 rest =>
            -- chain with at least two elements: move the head to the successor
            obtain ⟨t, hgl⟩ : ∃ t, (j0 :: rest).getLast? = some t :=
              ⟨(j0 :: rest).getLast (by simp),
                List.getLast?_eq_getLast_of_ne_nil (by simp)⟩
            have htmem : t ∈ j0 :: rest := mem_of_getLastQ hgl
            have hi0nm : i0 ∉ j0 :: rest := (List.nodup_cons.mp hfl.nodup).1
            have hi0t : i0 ≠ t := fun h => hi0nm (h ▸ htmem)
            have he : s.freeListEnqueue = (t : Int) := by
              rw [hfl.enqueue_eq]
              simp [lastIdx, List.getLast?_cons_cons, hgl]
            have hcond : ¬ s.freeListDequeue = s.freeListEnqueue := by
              rw [hd, he]
              simp [hi0t]
            have hlink1 : (getEntry s.handles (i0 : Int)).nextFree = ((j0 : Nat) : Int) :=
              hfl.linked.1
            have hdef : retrieveHandle s = (s.freeListDequeue,
                { s with
                  freeListDequeue := ((j0 : Nat) : Int)
                  handles := setNextFree s.handles s.freeListDequeue (-1) }) := by
              simp [retrieveHandle, hemp, hcond, hd, hlink1]
              rw [he]
              simp [hi0t]
            have hsetd : setNextFree s.handles s.freeListDequeue (-1) =
                setEntry s.handles (i0 : Int)
                  { getEntry s.handles (i0 : Int) with nextFree := -1 } := by
              rw [hd, setNextFree]
            refine ⟨i0, j0 :: rest, ?_, ?_, ?_, ?_, ?_, ?_, ?_, ?_, ?_, ?_, ?_, ?_, hi0nm,
              fun j hj => List.mem_cons_of_mem i0 hj, ?_⟩
            · rw [hdef, hd]
            · left
              refine ⟨hi0lt, ?_⟩
              rw [hdef]
              show (setNextFree s.handles s.freeListDequeue (-1)).length = _
              rw [hsetd, length_setEntry]
            · intro j hj hji
              rw [hdef]
              show getEntry (setNextFree s.handles s.freeListDequeue (-1)) (j : Int) = _
              rw [hsetd]
              exact getEntry_setN_ne _ i0 j _ (fun h => hji h.symm)
            · rw [hdef]
              show (getEntry (setNextFree s.handles s.freeListDequeue (-1)) (i0 : Int)).flags =
                HandleFlags.free
              rw [hsetd, getEntry_setN_self _ i0 _ hi0lt]
              exact hi0free
            · rw [hdef]
              show (getEntry (setNextFree s.handles s.freeListDequeue (-1)) (i0 : Int)).nextFree =
                -1
              rw [hsetd, getEntry_setN_self _ i0 _ hi0lt]
            · intro _
              rw [hdef]
              show (getEntry (setNextFree s.handles s.freeListDequeue (-1)) (i0 : Int)).handle = _
              rw [hsetd, getEntry_setN_self _ i0 _ hi0lt]
            · intro hieq
              omega
            · intro _
              exact hi0free
            · rw [hdef]
            · rw [hdef]
            · rw [hdef]
            · rw [hdef]
              show (countActive (setNextFree s.handles s.freeListDequeue (-1)) : Int) = _
              rw [hsetd]
              show ((setEntry s.handles (i0 : Int) _).countP _ : Int) = _
              rw [countP_setEntry s.handles i0 _ hi0lt]
              simp only [countActive]
              by_cases h1 : (getEntry s.handles (i0 : Int)).flags.active = true <;> simp [h1]
            · intro e hene henf
              have hlen2 : (setEntry s.handles (i0 : Int)
                  { getEntry s.handles (i0 : Int) with nextFree := -1 }).length =
                  s.handles.length := length_setEntry ..
              have hget2 : ∀ j : Nat, j ≠ i0 →
                  getEntry (setEntry (setEntry s.handles (i0 : Int)
                    { getEntry s.handles (i0 : Int) with nextFree := -1 }) (i0 : Int) e)
                    (j : Int) = getEntry s.handles (j : Int) := by
                intro j hji
                rw [getEntry_setN_ne _ i0 j _ (fun h => hji h.symm),
                  getEntry_setN_ne _ i0 j _ (fun h => hji h.symm)]
              have hgeti : getEntry (setEntry (setEntry s.handles (i0 : Int)
                  { getEntry s.handles (i0 : Int) with nextFree := -1 }) (i0 : Int) e)
                  (i0 : Int) = e :=
                getEntry_setN_self _ i0 e (by rw [hlen2]; exact hi0lt)
              have hkey : FreeListOk
                  { s with
                    freeListDequeue := ((j0 : Nat) : Int)
                    handles := setEntry (setEntry s.handles (i0 : Int)
                      { getEntry s.handles (i0 : Int) with nextFree := -1 }) (i0 : Int) e }
                  (j0 :: rest) := by
                refine ⟨?_, by simp [headIdx], ?_, (List.nodup_cons.mp hfl.nodup).2,
                  ?_, ?_, ?_, ?_⟩
                · show s.freeListIsEmpty = (j0 :: rest).isEmpty
                  simp only [Bool.not_eq_true] at hemp
                  rw [hemp]
                  simp
                · show s.freeListEnqueue = lastIdx (j0 :: rest)
                  rw [he]
                  simp [lastIdx, hgl]
                · intro j hj
                  show j < (setEntry (setEntry s.handles (i0 : Int) _) (i0 : Int) e).length
                  rw [length_setEntry, hlen2]
                  exact hfl.mem_lt j (List.mem_cons_of_mem i0 hj)
                · show chainLinked (setEntry (setEntry s.handles (i0 : Int) _) (i0 : Int) e)
                    (j0 :: rest)
                  refine chainLinked_congr s.handles _ (j0 :: rest) ?_
                    (chainLinked_tail s.handles i0 (j0 :: rest) hfl.linked)
                  intro k hk
                  rw [hget2 k (fun h => hi0nm (h ▸ hk))]
                · intro j hj
                  simp only [length_setEntry, hlen2] at hj
                  show (getEntry (setEntry (setEntry s.handles (i0 : Int) _) (i0 : Int) e)
                    (j : Int)).flags = HandleFlags.free ↔ j ∈ j0 :: rest
                  by_cases hji : j = i0
                  · subst hji
                    rw [hgeti]
                    exact iff_of_false hene hi0nm
                  · rw [hget2 j hji, hfl.free_iff j hj]
                    simp [hji]
                · intro j hj hjc
                  simp only [length_setEntry, hlen2] at hj
                  show (getEntry (setEntry (setEntry s.handles (i0 : Int) _) (i0 : Int) e)
                    (j : Int)).nextFree = -1
                  by_cases hji : j = i0
                  · subst hji
                    rw [hgeti]
                    exact henf
                  · rw [hget2 j hji]
                    exact hfl.unlinked j hj (by simp [hji, hjc])
              rw [hdef]
              refine FreeListOk_of_eq _ _ _ hkey ?_ rfl rfl rfl
              show setEntry (setNextFree s.handles s.freeListDequeue (-1)) (i0 : Int) e = _
              rw [hsetd]

theorem filterSlot_empty (i : Nat) : filterSlot [] i = [] := rfl

theorem filterSlot_cons_match (c : EntityCommand) (cs : List EntityCommand) (i : Nat)
    (h : c.handle.identifier = (i : Int) + 1) :
    filterSlot (c :: cs) i = c :: filterSlot cs i := by
  simp [filterSlot, List.filter_cons, h]

theorem filterSlot_cons_miss (c : EntityCommand) (cs : List EntityCommand) (i : Nat)
    (h : c.handle.identifier ≠ (i : Int) + 1) :
    filterSlot (c :: cs) i = filterSlot cs i := by
  simp [filterSlot, List.filter_cons, h]

theorem filterSlot_nil_of_bound (cs : List EntityCommand) (n : Nat)
    (hb : ∀ c ∈ cs, ∃ j, j < n ∧ c.handle.identifier = (j : Int) + 1)
    (i : Nat) (hi : n ≤ i) : filterSlot cs i = [] := by
  rw [filterSlot, List.filter_eq_nil_iff]
  intro c hc
  obtain ⟨j, hj, hid⟩ := hb c hc
  simp only [decide_eq_true_eq, hid]
  intro h
  have hji : j = i := by
    have : (j : Int) = (i : Int) := by omega
    exact_mod_cast this
  omega

theorem PendOk_shapes (f : HandleFlags) (h : EntityHandle) (q : List EntityCommand)
    (hp : PendOk f h q) :
    f = HandleFlags.free ∨ f = ⟨true, false, false⟩ ∨ f = ⟨true, false, true⟩ ∨
      f = ⟨true, true, false⟩ ∨ f = ⟨true, true, true⟩ := by
  obtain ⟨v, a, d⟩ := f
  cases v <;> cases a <;> cases d <;> simp_all [PendOk, HandleFlags.free]

theorem PendOk_nil (f : HandleFlags) (h : EntityHandle)
    (hp : PendOk f h []) :
    f = HandleFlags.free ∨ f = ⟨true, true, false⟩ := by
  obtain ⟨v, a, d⟩ := f
  cases v <;> cases a <;> cases d <;> simp_all [PendOk, HandleFlags.free]

/-- Closed form of IsHandleValid for an in-range handle on a set-up system:
the result is some of the conjunction of the three slot checks (Valid set,
Destroy not set, stored version equal). -/
theorem isHandleValidChecked_char (s : EntityState) (e : EntityHandle)
    (hinit : s.initialized = true) (i : Nat) (hident : e.identifier = (i : Int) + 1)
    (hi : i < s.handles.length) :
    isHandleValidChecked s e =
      some (decide ((getEntry s.handles (i : Int)).flags.valid = true ∧
        (getEntry s.handles (i : Int)).flags.destroy = false ∧
        (getEntry s.handles (i : Int)).handle.version = e.version)) := by
  have hidx : calculateHandleIndex e = (i : Int) := by
    rw [calculateHandleIndex, hident]
    ring
  have h0 : ¬ e.identifier = 0 := by
    rw [hident]
    omega
  have hr : 0 < e.identifier ∧ e.identifier ≤ (s.handles.length : Int) := by
    rw [hident]
    constructor
    · omega
    · omega
  rw [isHandleValidChecked, hinit]
  rw [if_neg (by simp), if_neg h0, if_neg (not_not_intro hr)]
  simp only [hidx]
  by_cases hv : (getEntry s.handles (i : Int)).flags.valid = false
  · simp [hv]
  · by_cases hd : (getEntry s.handles (i : Int)).flags.destroy = true
    · simp [hv, hd]
    · by_cases hver : (getEntry s.handles (i : Int)).handle.version = e.version
      · simp [hv, hd, hver]
      · simp [hv, hd, hver]

/-- Effect of CreateEntity on an invariant state: a slot i is taken from the
free list, marked Valid (never Active), its handle is returned, a Create
command carrying that handle is appended, the live counter is untouched, the
returned handle is immediately valid, and the invariant is preserved. -/
theorem createEntity_spec (s : EntityState) (hInv : Inv s) :
    ∃ i : Nat,
      (createEntity s).1 = (getEntry (createEntity s).2.handles (i : Int)).handle ∧
      i < (createEntity s).2.handles.length ∧
      s.handles.length ≤ (createEntity s).2.handles.length ∧
      (createEntity s).1.identifier = (i : Int) + 1 ∧
      (getEntry (createEntity s).2.handles (i : Int)).flags = ⟨true, false, false⟩ ∧
      (∀ j, j < s.handles.length → j ≠ i →
        getEntry (createEntity s).2.handles (j : Int) = getEntry s.handles (j : Int)) ∧
      (i < s.handles.length →
        (getEntry (createEntity s).2.handles (i : Int)).handle =
          (getEntry s.handles (i : Int)).handle) ∧
      (createEntity s).2.commands = s.commands ++
        [⟨EntityCommandType.create, (createEntity s).1⟩] ∧
      (createEntity s).2.entityCount = s.entityCount ∧
      isHandleValidChecked (createEntity s).2 (createEntity s).1 = some true ∧
      Inv (createEntity s).2 := by
  obtain ⟨c, hfl⟩ := hInv.free_list
  obtain ⟨i, c2, hpair, hlen, hothers, hfree, hnf, hkeepi, hfreshi, holdfree, hcmds, hcnt,
    hini, hca, hic2, hsub, hflk⟩ := retrieveHandle_spec s c hfl
  set s2 : EntityState := (retrieveHandle s).2 with hs2
  have hilt2 : i < s2.handles.length := by
    rcases hlen with ⟨h1, h2⟩ | ⟨h1, h2⟩ <;> omega
  have hdef : createEntity s =
      ((getEntry s2.handles (i : Int)).handle,
       { s2 with
         handles := setEntry s2.handles (i : Int)
           { getEntry s2.handles (i : Int) with
             flags := { (getEntry s2.handles (i : Int)).flags with
               valid := true } }
         commands := s2.commands ++
           [⟨EntityCommandType.create,
             (getEntry s2.handles (i : Int)).handle⟩] }) := by
    simp [createEntity, hInv.init, hpair]
  have hid : (getEntry s2.handles (i : Int)).handle.identifier =
      (i : Int) + 1 := by
    rcases hlen with ⟨h1, _⟩ | ⟨h1, _⟩
    · rw [hkeepi h1]
      exact hInv.ids i h1
    · rw [hfreshi h1, h1]
  have hgets : getEntry (createEntity s).2.handles (i : Int) =
      { getEntry s2.handles (i : Int) with
        flags := { (getEntry s2.handles (i : Int)).flags with
          valid := true } } := by
    rw [hdef]
    exact getEntry_setN_self _ i _ hilt2
  have hgeth : (getEntry (createEntity s).2.handles (i : Int)).handle =
      (getEntry s2.handles (i : Int)).handle := by
    rw [hgets]
  have hflags : (getEntry (createEntity s).2.handles (i : Int)).flags =
      ⟨true, false, false⟩ := by
    rw [hgets]
    show { (getEntry s2.handles (i : Int)).flags with valid := true } =
      (⟨true, false, false⟩ : HandleFlags)
    rw [hfree]
    rfl
  have hlen2 : (createEntity s).2.handles.length = s2.handles.length := by
    rw [hdef]
    exact length_setEntry ..
  have hhd : (createEntity s).1 = (getEntry s2.handles (i : Int)).handle := by
    rw [hdef]
  have hget2 : ∀ j : Nat, j ≠ i →
      getEntry (createEntity s).2.handles (j : Int) =
        getEntry s2.handles (j : Int) := by
    intro j hji
    rw [hdef]
    exact getEntry_setN_ne _ i j _ (fun h => hji h.symm)
  refine ⟨i, ?_, ?_, ?_, ?_, hflags, ?_, ?_, ?_, ?_, ?_, ?_⟩
  · rw [hhd, hgets]
  · omega
  · omega
  · rw [hhd]
    exact hid
  · intro j hj hji
    rw [hget2 j hji]
    exact hothers j hj hji
  · intro hilt
    rw [hgets]
    show (getEntry s2.handles (i : Int)).handle = _
    exact hkeepi hilt
  · rw [hdef]
    show s2.commands ++ _ = _
    rw [hcmds]
  · rw [hdef]
    show s2.entityCount = s.entityCount
    exact hcnt
  · -- the returned handle is valid immediately
    have hinit2 : (createEntity s).2.initialized = true := by
      rw [hdef]
      show s2.initialized = true
      rw [hini]
      exact hInv.init
    have hilt3 : i < (createEntity s).2.handles.length := by omega
    rw [isHandleValidChecked_char (createEntity s).2 (createEntity s).1 hinit2 i
      (by rw [hhd]; exact hid) hilt3]
    simp only [hflags, Option.some.injEq, decide_eq_true_eq]
    refine ⟨by trivial, by trivial, ?_⟩
    rw [hgeth, hhd]
  · -- the invariant is preserved
    have hinit2 : (createEntity s).2.initialized = true := by
      rw [hdef]
      show s2.initialized = true
      rw [hini]
      exact hInv.init
    have hcomp : ∀ j, j < s.handles.length → j ≠ i →
        getEntry (createEntity s).2.handles (j : Int) = getEntry s.handles (j : Int) := by
      intro j hj hji
      rw [hget2 j hji]
      exact hothers j hj hji
    have hjlt : ∀ j, j < (createEntity s).2.handles.length → j ≠ i →
        j < s.handles.length := by
      intro j hj hji
      rcases hlen with ⟨h1, h2⟩ | ⟨h1, h2⟩ <;> omega
    have hcmds2 : (createEntity s).2.commands = s.commands ++
        [⟨EntityCommandType.create, (getEntry (createEntity s).2.handles (i : Int)).handle⟩] := by
      rw [hgeth, hdef]
      show s2.commands ++ _ = _
      rw [hcmds]
    have hnewid : (getEntry (createEntity s).2.handles (i : Int)).handle.identifier =
        (i : Int) + 1 := by
      rw [hgeth]
      exact hid
    have hfilteri : filterSlot s.commands i = [] := by
      rcases hlen with ⟨h1, _⟩ | ⟨h1, _⟩
      · exact hInv.pend_free i h1 (holdfree h1)
      · exact filterSlot_nil_of_bound s.commands s.handles.length hInv.cmd_bound i (by omega)
    have hcaS : (countActive (createEntity s).2.handles : Int) =
        (countActive s.handles : Int) := by
      rw [hdef]
      show ((setEntry s2.handles (i : Int) _).countP _ : Int) = _
      rw [countP_setEntry _ i _ hilt2]
      have ha1 : (getEntry s2.handles (i : Int)).flags.active = false := by
        rw [hfree]
        rfl
      simp only [countActive] at hca ⊢
      simp [ha1]
      omega
    refine ⟨hinit2, ?_, ?_, ?_, ?_, ?_, ?_⟩
    · -- stored identifiers
      intro j hj
      by_cases hji : j = i
      · rw [hji, hgeth]
        exact hid
      · rw [hcomp j (hjlt j hj hji) hji]
        exact hInv.ids j (hjlt j hj hji)
    · -- counter equals the number of Active slots
      have hc1 : (createEntity s).2.entityCount = s.entityCount := by
        rw [hdef]
        exact hcnt
      rw [hc1, hInv.count_eq]
      omega
    · -- command bound
      intro cmd hc
      rw [hcmds2] at hc
      rcases List.mem_append.mp hc with hcm | hcm
      · obtain ⟨j, hj, hjid⟩ := hInv.cmd_bound cmd hcm
        exact ⟨j, by omega, hjid⟩
      · simp only [List.mem_singleton] at hcm
        subst hcm
        exact ⟨i, by omega, hnewid⟩
    · -- per slot pending commands
      intro j hj
      rw [hcmds2, filterSlot_append]
      by_cases hji : j = i
      · subst hji
        rw [hfilteri, filterSlot_cons_match _ _ _ hnewid]
        rw [hflags]
        unfold PendOk
        rw [if_neg (by decide), if_pos rfl]
        rw [filterSlot_empty]
        simp
      · have hjs : j < s.handles.length := hjlt j hj hji
        rw [filterSlot_cons_miss _ _ _ (by
          rw [hnewid]
          intro hcontra
          have : i = j := by
            have : (i : Int) = (j : Int) := by omega
            exact_mod_cast this
          exact hji this.symm)]
        simp only [filterSlot_empty, List.append_nil]
        rw [hcomp j hjs hji]
        exact hInv.pend j hjs
    · -- free slots have no pending commands
      intro j hj hjfree
      have hji : j ≠ i := by
        intro h
        subst h
        rw [hflags] at hjfree
        exact absurd hjfree (by decide)
      have hjs : j < s.handles.length := hjlt j hj hji
      rw [hcmds2, filterSlot_append]
      rw [filterSlot_cons_miss _ _ _ (by
        rw [hnewid]
        intro hcontra
        have : i = j := by
          have : (i : Int) = (j : Int) := by omega
          exact_mod_cast this
        exact hji this.symm)]
      simp only [filterSlot_empty, List.append_nil]
      rw [hcomp j hjs hji] at hjfree
      exact hInv.pend_free j hjs hjfree
    · -- free list integrity
      refine ⟨c2, ?_⟩
      have hflk2 := hflk
        { getEntry s2.handles (i : Int) with
          flags := { (getEntry s2.handles (i : Int)).flags with
            valid := true } }
        (by simp [HandleFlags.free])
        hnf
      refine FreeListOk_of_eq _ _ _ hflk2 ?_ ?_ ?_ ?_
      · rw [hdef]
      · rw [hdef]
      · rw [hdef]
      · rw [hdef]

theorem EntityHandle.ext2 (a b : EntityHandle) (h1 : a.identifier = b.identifier)
    (h2 : a.version = b.version) : a = b := by
  cases a
  cases b
  simp_all

/-- A handle that IsHandleValid accepts addresses an in-range slot whose
Valid bit is set, whose Destroy bit is clear and whose version matches. -/
theorem isHandleValidChecked_true_elim (s : EntityState) (e : EntityHandle)
    (h : isHandleValidChecked s e = some true) :
    s.initialized = true ∧ ∃ i : Nat, e.identifier = (i : Int) + 1 ∧
      i < s.handles.length ∧
      (getEntry s.handles (i : Int)).flags.valid = true ∧
      (getEntry s.handles (i : Int)).flags.destroy = false ∧
      (getEntry s.handles (i : Int)).handle.version = e.version := by
  unfold isHandleValidChecked at h
  split_ifs at h with h1 h2 h3 h4 h5 h6
  all_goals first
  | exact Option.noConfusion h
  | exact absurd (Option.some.inj h) Bool.false_ne_true
  | obtain ⟨h3a, h3b⟩ := h3
  have hcast : ((e.identifier - 1).toNat : Int) = calculateHandleIndex e := by
    rw [calculateHandleIndex]
    omega
  refine ⟨by simpa using h1, (e.identifier - 1).toNat, by omega, by omega, ?_, ?_, ?_⟩
  · rw [show ((e.identifier - 1).toNat : Int) = calculateHandleIndex e from hcast]
    simpa using h4
  · rw [show ((e.identifier - 1).toNat : Int) = calculateHandleIndex e from hcast]
    simpa using h5
  · rw [show ((e.identifier - 1).toNat : Int) = calculateHandleIndex e from hcast]
    simpa using h6

/-- DestroyEntity is a silent no-op on a handle that is not currently
valid (including on a system that is not set up). -/
theorem destroyEntity_noop (s : EntityState) (e : EntityHandle)
    (h : isHandleValidChecked s e ≠ some true) : destroyEntity s e = s := by
  unfold destroyEntity
  by_cases h1 : s.initialized = false
  · rw [if_pos h1]
  · rw [if_neg h1, if_pos h]

/-- Effect of DestroyEntity on a currently valid handle: the slot gains the
Destroy flag, a Destroy command carrying the stored handle is appended, the
counter is untouched, the handle stops being valid at once, and the invariant
is preserved. -/
theorem destroyEntity_spec (s : EntityState) (hInv : Inv s) (e : EntityHandle)
    (hval : isHandleValidChecked s e = some true) :
    ∃ i : Nat,
      e.identifier = (i : Int) + 1 ∧
      i < s.handles.length ∧
      e = (getEntry s.handles (i : Int)).handle ∧
      (getEntry s.handles (i : Int)).flags.valid = true ∧
      (getEntry s.handles (i : Int)).flags.destroy = false ∧
      (destroyEntity s e).handles.length = s.handles.length ∧
      (getEntry (destroyEntity s e).handles (i : Int)).handle =
        (getEntry s.handles (i : Int)).handle ∧
      (getEntry (destroyEntity s e).handles (i : Int)).flags =
        { (getEntry s.handles (i : Int)).flags with destroy := true } ∧
      (∀ j, j < s.handles.length → j ≠ i →
        getEntry (destroyEntity s e).handles (j : Int) = getEntry s.handles (j : Int)) ∧
      (destroyEntity s e).commands = s.commands ++ [⟨EntityCommandType.destroy, e⟩] ∧
      (destroyEntity s e).entityCount = s.entityCount ∧
      (destroyEntity s e).initialized = s.initialized ∧
      isHandleValidChecked (destroyEntity s e) e = some false ∧
      Inv (destroyEntity s e) := by
  obtain ⟨hinit, i, hident, hilt, hv, hd, hver⟩ := isHandleValidChecked_true_elim s e hval
  have hids := hInv.ids i hilt
  have hhandle : e = (getEntry s.handles (i : Int)).handle :=
    EntityHandle.ext2 _ _ (by rw [hident, hids]) hver.symm
  have hidx : calculateHandleIndex e = (i : Int) := by
    rw [calculateHandleIndex, hident]
    ring
  have hdef : destroyEntity s e =
      { s with
        handles := setEntry s.handles (i : Int)
          { getEntry s.handles (i : Int) with
            flags := { (getEntry s.handles (i : Int)).flags with destroy := true } }
        commands := s.commands ++
          [⟨EntityCommandType.destroy, (getEntry s.handles (i : Int)).handle⟩] } := by
    unfold destroyEntity
    rw [if_neg (by rw [hinit]; simp), if_neg (by simp [hval]), hidx]
  have hlen1 : (destroyEntity s e).handles.length = s.handles.length := by
    rw [hdef]
    exact length_setEntry ..
  have hgeti : getEntry (destroyEntity s e).handles (i : Int) =
      { getEntry s.handles (i : Int) with
        flags := { (getEntry s.handles (i : Int)).flags with destroy := true } } := by
    rw [hdef]
    exact getEntry_setN_self _ i _ hilt
  have hgetj : ∀ j, j < s.handles.length → j ≠ i →
      getEntry (destroyEntity s e).handles (j : Int) = getEntry s.handles (j : Int) := by
    intro j hj hji
    rw [hdef]
    exact getEntry_setN_ne _ i j _ (fun h => hji h.symm)
  have hcmds1 : (destroyEntity s e).commands =
      s.commands ++ [⟨EntityCommandType.destroy, e⟩] := by
    rw [hdef]
    show s.commands ++ _ = _
    rw [← hhandle]
  have hcnt1 : (destroyEntity s e).entityCount = s.entityCount := by
    rw [hdef]
  have hini1 : (destroyEntity s e).initialized = s.initialized := by
    rw [hdef]
  refine ⟨i, hident, hilt, hhandle, hv, hd, hlen1, by rw [hgeti], by rw [hgeti], hgetj,
    hcmds1, hcnt1, hini1, ?_, ?_⟩
  · -- the handle is no longer valid: the Destroy bit is now set
    rw [isHandleValidChecked_char (destroyEntity s e) e (by rw [hini1]; exact hinit) i hident
      (by omega)]
    rw [hgeti]
    simp
  · -- invariant preservation
    have hshape : (getEntry s.handles (i : Int)).flags = ⟨true, false, false⟩ ∨
        (getEntry s.handles (i : Int)).flags = ⟨true, true, false⟩ := by
      rcases PendOk_shapes _ _ _ (hInv.pend i hilt) with hf | hf | hf | hf | hf
      · rw [hf] at hv
        exact absurd hv (by simp [HandleFlags.free])
      · exact Or.inl hf
      · rw [hf] at hd
        simp at hd
      · exact Or.inr hf
      · rw [hf] at hd
        simp at hd
    have hocc : (getEntry s.handles (i : Int)).flags ≠ HandleFlags.free := by
      intro h
      rw [h] at hv
      exact absurd hv (by simp [HandleFlags.free])
    have hcid : ∀ j : Nat, j ≠ i →
        ((⟨EntityCommandType.destroy, e⟩ : EntityCommand)).handle.identifier ≠ (j : Int) + 1 := by
      intro j hji
      show e.identifier ≠ (j : Int) + 1
      rw [hident]
      intro hcontra
      have : i = j := by
        have : (i : Int) = (j : Int) := by omega
        exact_mod_cast this
      exact hji this.symm
    refine ⟨by rw [hini1]; exact hinit, ?_, ?_, ?_, ?_, ?_, ?_⟩
    · intro j hj
      rw [hlen1] at hj
      by_cases hji : j = i
      · rw [hji, hgeti]
        show (getEntry s.handles (i : Int)).handle.identifier = _
        rw [hids]
      · rw [hgetj j hj hji]
        exact hInv.ids j hj
    · rw [hcnt1, hInv.count_eq]
      have : (countActive (destroyEntity s e).handles : Int) =
          (countActive s.handles : Int) := by
        rw [hdef]
        show ((setEntry s.handles (i : Int) _).countP _ : Int) = _
        rw [countP_setEntry _ i _ hilt]
        simp only [countActive]
        by_cases h1 : (getEntry s.handles (i : Int)).flags.active = true <;> simp [h1]
      omega
    · intro cmd hc
      rw [hcmds1] at hc
      rcases List.mem_append.mp hc with hcm | hcm
      · obtain ⟨j, hj, hjid⟩ := hInv.cmd_bound cmd hcm
        exact ⟨j, by omega, hjid⟩
      · simp only [List.mem_singleton] at hcm
        subst hcm
        exact ⟨i, by omega, hident⟩
    · intro j hj
      rw [hlen1] at hj
      rw [hcmds1, filterSlot_append]
      have hfd : (getEntry (destroyEntity s e).handles (i : Int)).flags =
          { (getEntry s.handles (i : Int)).flags with destroy := true } := by
        rw [hgeti]
      have hhd2 : (getEntry (destroyEntity s e).handles (i : Int)).handle =
          (getEntry s.handles (i : Int)).handle := by
        rw [hgeti]
      by_cases hji : j = i
      · rw [hji]
        rw [filterSlot_cons_match _ _ _ hident, filterSlot_empty, hfd, hhd2]
        have hpi := hInv.pend i hilt
        rcases hshape with hf | hf
        · rw [hf] at hpi ⊢
          unfold PendOk at hpi ⊢
          rw [if_neg (by decide), if_pos rfl] at hpi
          rw [if_neg (by decide), if_neg (by decide), if_pos (by decide)]
          rw [hpi, hhandle]
          simp
        · rw [hf] at hpi ⊢
          unfold PendOk at hpi ⊢
          rw [if_neg (by decide), if_neg (by decide), if_neg (by decide), if_pos rfl] at hpi
          rw [if_neg (by decide), if_neg (by decide), if_neg (by decide), if_neg (by decide),
            if_pos (by decide)]
          rw [hpi, hhandle]
          simp
      · rw [filterSlot_cons_miss _ _ _ (hcid j hji), filterSlot_empty, List.append_nil]
        rw [hgetj j hj hji]
        exact hInv.pend j hj
    · intro j hj hjf
      rw [hlen1] at hj
      have hji : j ≠ i := by
        intro hcontra
        rw [hcontra, hgeti] at hjf
        have := congrArg HandleFlags.destroy hjf
        simp [HandleFlags.free] at this
      rw [hcmds1, filterSlot_append, filterSlot_cons_miss _ _ _ (hcid j hji),
        filterSlot_empty, List.append_nil]
      rw [hgetj j hj hji] at hjf
      exact hInv.pend_free j hj hjf
    · obtain ⟨fc, hfl⟩ := hInv.free_list
      refine ⟨fc, ?_⟩
      have hic : i ∉ fc := fun hmem => hocc ((hfl.free_iff i hilt).mpr hmem)
      have hupd := FreeListOk_update s fc hfl i
        { getEntry s.handles (i : Int) with
          flags := { (getEntry s.handles (i : Int)).flags with destroy := true } }
        hic
        (by
          intro hcontra
          have := congrArg HandleFlags.valid hcontra
          simp only [HandleFlags.free] at this
          rw [hv] at this
          simp at this)
        (by
          show (getEntry s.handles (i : Int)).nextFree = -1
          exact hfl.unlinked i hilt hic)
      refine FreeListOk_of_eq _ _ _ hupd ?_ ?_ ?_ ?_
      · rw [hdef]
      · rw [hdef]
      · rw [hdef]
      · rw [hdef]

/-! The ProcessCommands drain. -/

/-- The (handle, flags) pair stored in slot i. -/
def slotOf (s : EntityState) (i : Nat) : EntityHandle × HandleFlags :=
  ((getEntry s.handles (i : Int)).handle, (getEntry s.handles (i : Int)).flags)

/-- The possible effect of a single drained command on the (handle, flags)
pair stored in one slot: untouched, activated by a passing finalize vote, or
freed with the version bumped (by a finalize veto or a processed Destroy). -/
def SlotStep (a b : EntityHandle × HandleFlags) : Prop :=
  b = a ∨
  (a.2.valid = true ∧ a.2.active = false ∧ b = (a.1, { a.2 with active := true })) ∨
  (a.2 ≠ HandleFlags.free ∧ b = (⟨a.1.identifier, a.1.version + 1⟩, HandleFlags.free))

/-- Closure of SlotStep chains: across any number of drained commands a slot
is untouched, activated, or freed exactly once with its version bumped by
exactly one. -/
theorem slotStep_star_cases (a b : EntityHandle × HandleFlags)
    (h : Relation.ReflTransGen SlotStep a b) :
    b = a ∨
    (a.2.valid = true ∧ a.2.active = false ∧ b = (a.1, { a.2 with active := true })) ∨
    (a.2 ≠ HandleFlags.free ∧ b = (⟨a.1.identifier, a.1.version + 1⟩, HandleFlags.free)) := by
  induction h with
  | refl => exact Or.inl rfl
  | tail hab hbc ih =>
    rcases ih with rfl | ⟨hv, ha, rfl⟩ | ⟨hf, rfl⟩
    · exact hbc
    · rcases hbc with rfl | ⟨hv2, ha2, rfl⟩ | ⟨hf2, rfl⟩
      · exact Or.inr (Or.inl ⟨hv, ha, rfl⟩)
      · simp at ha2
      · refine Or.inr (Or.inr ⟨?_, rfl⟩)
        intro hcontra
        have h3 := congrArg HandleFlags.valid hcontra
        rw [hv] at h3
        simp [HandleFlags.free] at h3
    · rcases hbc with rfl | ⟨hv2, ha2, rfl⟩ | ⟨hf2, rfl⟩
      · exact Or.inr (Or.inr ⟨hf, rfl⟩)
      · simp [HandleFlags.free] at hv2
      · exact absurd rfl hf2

theorem drainGo_cons (subs : List (EntityHandle → Bool)) (c : EntityCommand)
    (cs : List EntityCommand) (s : EntityState) :
    (drainGo subs (c :: cs) s).1 = (drainGo subs cs (processCommand subs s c).1).1 := rfl

/-- One iteration of the ProcessCommands drain preserves the drain invariant;
the table length is unchanged, every slot moves by at most one SlotStep, and
every slot other than the command's own slot keeps its handle and flags. -/
theorem drain_step (subs : List (EntityHandle → Bool)) (s : EntityState)
    (c : EntityCommand) (rest : List EntityCommand)
    (h : DrainInv s (c :: rest)) :
    DrainInv (processCommand subs s c).1 rest ∧
    (processCommand subs s c).1.handles.length = s.handles.length ∧
    (∀ i, i < s.handles.length →
      SlotStep (slotOf s i) (slotOf (processCommand subs s c).1 i)) ∧
    (∀ i, i < s.handles.length → c.handle.identifier ≠ (i : Int) + 1 →
      (getEntry (processCommand subs s c).1.handles (i : Int)).handle =
        (getEntry s.handles (i : Int)).handle ∧
      (getEntry (processCommand subs s c).1.handles (i : Int)).flags =
        (getEntry s.handles (i : Int)).flags) ∧
    (∀ i, i < s.handles.length →
      (getEntry s.handles (i : Int)).flags = ⟨true, false, false⟩ →
      ¬ (subs.isEmpty = false ∧
        collectWhileTrue subs (getEntry s.handles (i : Int)).handle = false) →
      (getEntry (processCommand subs s c).1.handles (i : Int)).handle =
        (getEntry s.handles (i : Int)).handle ∧
      ((getEntry (processCommand subs s c).1.handles (i : Int)).flags = ⟨true, false, false⟩ ∨
        (getEntry (processCommand subs s c).1.handles (i : Int)).flags =
          ⟨true, true, false⟩)) := by
  obtain ⟨ct, ch⟩ := c
  obtain ⟨i, hi, hident⟩ := h.cmd_bound ⟨ct, ch⟩ (List.mem_cons_self ..)
  have hident2 : ch.identifier = (i : Int) + 1 := hident
  have hidx : calculateHandleIndex ch = (i : Int) := by
    rw [calculateHandleIndex, hident2]
    ring
  have hpi := h.pend i hi
  rw [filterSlot_cons_match ⟨ct, ch⟩ rest i hident] at hpi
  obtain ⟨fc, hfl⟩ := h.free_list
  have hmiss : ∀ j : Nat, j ≠ i →
      filterSlot ((⟨ct, ch⟩ : EntityCommand) :: rest) j = filterSlot rest j := by
    intro j hji
    refine filterSlot_cons_miss _ rest j ?_
    show ch.identifier ≠ (j : Int) + 1
    rw [hident2]
    intro hcontra
    apply hji
    have hcast : (j : Int) = (i : Int) := by omega
    exact_mod_cast hcast
  rcases PendOk_shapes _ _ _ hpi with hf | hf | hf | hf | hf
  · -- the slot is Free: the pending command is a stale Destroy and is skipped
    rw [hf] at hpi
    unfold PendOk at hpi
    rw [if_pos rfl] at hpi
    rcases hpi with hnil | ⟨h2, hq, hid2, hne2⟩
    · exact absurd hnil (List.cons_ne_nil _ _)
    · simp only [List.cons.injEq, EntityCommand.mk.injEq] at hq
      obtain ⟨⟨hct, hch⟩, hrest⟩ := hq
      subst hct
      subst hch
      have hdef : processCommand subs s ⟨EntityCommandType.destroy, ch⟩ = (s, []) := by
        show (if ch ≠ (getEntry s.handles (calculateHandleIndex ch)).handle then (s, [])
          else destroyHandle (calculateHandleIndex ch) s) = (s, [])
        rw [hidx, if_pos hne2]
      rw [hdef]
      refine ⟨⟨h.init, h.cmds, h.ids, h.count_eq, ?_, ?_, ⟨fc, hfl⟩⟩, rfl, ?_, ?_, ?_⟩
      · intro c2 hc2
        exact h.cmd_bound c2 (List.mem_cons_of_mem _ hc2)
      · intro j hj
        by_cases hji : j = i
        · subst hji
          rw [hf, hrest]
          unfold PendOk
          rw [if_pos rfl]
          exact Or.inl rfl
        · rw [← hmiss j hji]
          exact h.pend j hj
      · intro j hj
        exact Or.inl rfl
      · intro j hj hjne
        exact ⟨rfl, rfl⟩
      · intro j hj hfj hvj
        exact ⟨rfl, Or.inl hfj⟩
  · -- the slot is Valid only: the pending command is its Create
    rw [hf] at hpi
    unfold PendOk at hpi
    rw [if_neg (by decide), if_pos rfl] at hpi
    simp only [List.cons.injEq, EntityCommand.mk.injEq] at hpi
    obtain ⟨⟨hct, hch⟩, hrest⟩ := hpi
    subst hct
    subst hch
    have hocc : (getEntry s.handles (i : Int)).flags ≠ HandleFlags.free := by
      rw [hf]
      decide
    have hdef : processCommand subs s
        ⟨EntityCommandType.create, (getEntry s.handles (i : Int)).handle⟩ =
        createHandle subs (i : Int) s := by
      show createHandle subs (calculateHandleIndex (getEntry s.handles (i : Int)).handle) s = _
      rw [hidx]
    rw [hdef]
    by_cases hveto : subs.isEmpty = false ∧
        collectWhileTrue subs (getEntry s.handles (i : Int)).handle = false
    · -- finalize veto: the slot is freed again
      obtain ⟨hev, hlen, hei, hothers, hcmd, hcnt, hinit, hflk, hca⟩ :=
        createHandle_veto subs s fc hfl i hi hocc hveto.1 hveto.2
      rw [hf] at hca
      simp only [HandleFlags.free] at hca
      norm_num at hca
      refine ⟨⟨?_, ?_, ?_, ?_, ?_, ?_, ⟨fc ++ [i], hflk⟩⟩, hlen, ?_, ?_, ?_⟩
      · rw [hinit]
        exact h.init
      · rw [hcmd]
        exact h.cmds
      · intro j hj
        rw [hlen] at hj
        by_cases hji : j = i
        · subst hji
          rw [hei]
          exact h.ids j hj
        · rw [(hothers j hj hji).1]
          exact h.ids j hj
      · rw [hcnt, hca, h.count_eq]
      · intro c2 hc2
        obtain ⟨j, hj, hjid⟩ := h.cmd_bound c2 (List.mem_cons_of_mem _ hc2)
        exact ⟨j, by omega, hjid⟩
      · intro j hj
        rw [hlen] at hj
        by_cases hji : j = i
        · subst hji
          rw [hei, hrest]
          unfold PendOk
          rw [if_pos rfl]
          exact Or.inl rfl
        · rw [(hothers j hj hji).1, (hothers j hj hji).2, ← hmiss j hji]
          exact h.pend j hj
      · intro j hj
        by_cases hji : j = i
        · subst hji
          refine Or.inr (Or.inr ⟨hocc, ?_⟩)
          simp [slotOf, hei]
        · refine Or.inl ?_
          simp [slotOf, (hothers j hj hji).1, (hothers j hj hji).2]
      · intro j hj hjne
        have hji : j ≠ i := by
          intro hcontra
          subst hcontra
          exact hjne hident2
        exact hothers j hj hji
      · intro j hj hfj hvj
        by_cases hji : j = i
        · subst hji
          exact absurd hveto hvj
        · obtain ⟨hh, hfq⟩ := hothers j hj hji
          exact ⟨hh, Or.inl (by rw [hfq, hfj])⟩
    · -- finalize vote passes: the slot becomes Active
      obtain ⟨hev, hlen, hei, hothers, hcmd, hcnt, hinit, hflk, hca⟩ :=
        createHandle_ok subs s fc hfl i hi hocc hveto
      rw [hf] at hca
      norm_num at hca
      have hflags2 : (getEntry (createHandle subs (i : Int) s).1.handles (i : Int)).flags =
          ⟨true, true, false⟩ := by
        rw [hei, hf]
      have hhd2 : (getEntry (createHandle subs (i : Int) s).1.handles (i : Int)).handle =
          (getEntry s.handles (i : Int)).handle := by
        rw [hei]
      refine ⟨⟨?_, ?_, ?_, ?_, ?_, ?_, ⟨fc, hflk⟩⟩, hlen, ?_, ?_, ?_⟩
      · rw [hinit]
        exact h.init
      · rw [hcmd]
        exact h.cmds
      · intro j hj
        rw [hlen] at hj
        by_cases hji : j = i
        · subst hji
          rw [hhd2]
          exact h.ids j hj
        · rw [hothers j hj hji]
          exact h.ids j hj
      · rw [hcnt, hca, h.count_eq]
      · intro c2 hc2
        obtain ⟨j, hj, hjid⟩ := h.cmd_bound c2 (List.mem_cons_of_mem _ hc2)
        exact ⟨j, by omega, hjid⟩
      · intro j hj
        rw [hlen] at hj
        by_cases hji : j = i
        · subst hji
          rw [hflags2, hhd2, hrest]
          unfold PendOk
          rw [if_neg (by decide), if_neg (by decide), if_neg (by decide), if_pos rfl]
        · rw [hothers j hj hji, ← hmiss j hji]
          exact h.pend j hj
      · intro j hj
        by_cases hji : j = i
        · subst hji
          refine Or.inr (Or.inl ⟨by simp [slotOf, hf], by simp [slotOf, hf], ?_⟩)
          simp [slotOf, hhd2, hflags2, hf, HandleFlags.free]
        · refine Or.inl ?_
          simp [slotOf, hothers j hj hji]
      · intro j hj hjne
        have hji : j ≠ i := by
          intro hcontra
          subst hcontra
          exact hjne hident2
        rw [hothers j hj hji]
        exact ⟨rfl, rfl⟩
      · intro j hj hfj hvj
        by_cases hji : j = i
        · subst hji
          exact ⟨hhd2, Or.inr hflags2⟩
        · rw [hothers j hj hji]
          exact ⟨rfl, Or.inl hfj⟩
  · -- the slot is Valid with Destroy set: its Create is processed first
    rw [hf] at hpi
    unfold PendOk at hpi
    rw [if_neg (by decide), if_neg (by decide), if_pos rfl] at hpi
    simp only [List.cons.injEq, EntityCommand.mk.injEq] at hpi
    obtain ⟨⟨hct, hch⟩, hrest⟩ := hpi
    subst hct
    subst hch
    have hocc : (getEntry s.handles (i : Int)).flags ≠ HandleFlags.free := by
      rw [hf]
      decide
    have hdef : processCommand subs s
        ⟨EntityCommandType.create, (getEntry s.handles (i : Int)).handle⟩ =
        createHandle subs (i : Int) s := by
      show createHandle subs (calculateHandleIndex (getEntry s.handles (i : Int)).handle) s = _
      rw [hidx]
    rw [hdef]
    by_cases hveto : subs.isEmpty = false ∧
        collectWhileTrue subs (getEntry s.handles (i : Int)).handle = false
    · -- finalize veto: the slot is freed; its Destroy command goes stale
      obtain ⟨hev, hlen, hei, hothers, hcmd, hcnt, hinit, hflk, hca⟩ :=
        createHandle_veto subs s fc hfl i hi hocc hveto.1 hveto.2
      rw [hf] at hca
      simp only [HandleFlags.free] at hca
      norm_num at hca
      refine ⟨⟨?_, ?_, ?_, ?_, ?_, ?_, ⟨fc ++ [i], hflk⟩⟩, hlen, ?_, ?_, ?_⟩
      · rw [hinit]
        exact h.init
      · rw [hcmd]
        exact h.cmds
      · intro j hj
        rw [hlen] at hj
        by_cases hji : j = i
        · subst hji
          rw [hei]
          exact h.ids j hj
        · rw [(hothers j hj hji).1]
          exact h.ids j hj
      · rw [hcnt, hca, h.count_eq]
      · intro c2 hc2
        obtain ⟨j, hj, hjid⟩ := h.cmd_bound c2 (List.mem_cons_of_mem _ hc2)
        exact ⟨j, by omega, hjid⟩
      · intro j hj
        rw [hlen] at hj
        by_cases hji : j = i
        · subst hji
          rw [hei, hrest]
          unfold PendOk
          rw [if_pos rfl]
          refine Or.inr ⟨(getEntry s.handles (j : Int)).handle, rfl, rfl, ?_⟩
          intro hcontra
          have hver := congrArg EntityHandle.version hcontra
          simp only at hver
          omega
        · rw [(hothers j hj hji).1, (hothers j hj hji).2, ← hmiss j hji]
          exact h.pend j hj
      · intro j hj
        by_cases hji : j = i
        · subst hji
          refine Or.inr (Or.inr ⟨hocc, ?_⟩)
          simp [slotOf, hei]
        · refine Or.inl ?_
          simp [slotOf, (hothers j hj hji).1, (hothers j hj hji).2]
      · intro j hj hjne
        have hji : j ≠ i := by
          intro hcontra
          subst hcontra
          exact hjne hident2
        exact hothers j hj hji
      · intro j hj hfj hvj
        by_cases hji : j = i
        · subst hji
          rw [hf] at hfj
          exact absurd hfj (by decide)
        · obtain ⟨hh, hfq⟩ := hothers j hj hji
          exact ⟨hh, Or.inl (by rw [hfq, hfj])⟩
    · -- finalize vote passes: the slot becomes Active, its Destroy remains
      obtain ⟨hev, hlen, hei, hothers, hcmd, hcnt, hinit, hflk, hca⟩ :=
        createHandle_ok subs s fc hfl i hi hocc hveto
      rw [hf] at hca
      norm_num at hca
      have hflags2 : (getEntry (createHandle subs (i : Int) s).1.handles (i : Int)).flags =
          ⟨true, true, true⟩ := by
        rw [hei, hf]
      have hhd2 : (getEntry (createHandle subs (i : Int) s).1.handles (i : Int)).handle =
          (getEntry s.handles (i : Int)).handle := by
        rw [hei]
      refine ⟨⟨?_, ?_, ?_, ?_, ?_, ?_, ⟨fc, hflk⟩⟩, hlen, ?_, ?_, ?_⟩
      · rw [hinit]
        exact h.init
      · rw [hcmd]
        exact h.cmds
      · intro j hj
        rw [hlen] at hj
        by_cases hji : j = i
        · subst hji
          rw [hhd2]
          exact h.ids j hj
        · rw [hothers j hj hji]
          exact h.ids j hj
      · rw [hcnt, hca, h.count_eq]
      · intro c2 hc2
        obtain ⟨j, hj, hjid⟩ := h.cmd_bound c2 (List.mem_cons_of_mem _ hc2)
        exact ⟨j, by omega, hjid⟩
      · intro j hj
        rw [hlen] at hj
        by_cases hji : j = i
        · subst hji
          rw [hflags2, hhd2, hrest]
          unfold PendOk
          rw [if_neg (by decide), if_neg (by decide), if_neg (by decide), if_neg (by decide),
            if_pos rfl]
        · rw [hothers j hj hji, ← hmiss j hji]
          exact h.pend j hj
      · intro j hj
        by_cases hji : j = i
        · subst hji
          refine Or.inr (Or.inl ⟨by simp [slotOf, hf], by simp [slotOf, hf], ?_⟩)
          simp [slotOf, hhd2, hflags2, hf, HandleFlags.free]
        · refine Or.inl ?_
          simp [slotOf, hothers j hj hji]
      · intro j hj hjne
        have hji : j ≠ i := by
          intro hcontra
          subst hcontra
          exact hjne hident2
        rw [hothers j hj hji]
        exact ⟨rfl, rfl⟩
      · intro j hj hfj hvj
        by_cases hji : j = i
        · subst hji
          rw [hf] at hfj
          exact absurd hfj (by decide)
        · rw [hothers j hj hji]
          exact ⟨rfl, Or.inl hfj⟩
  · -- the slot is Active with no pending command: impossible for this command
    rw [hf] at hpi
    unfold PendOk at hpi
    rw [if_neg (by decide), if_neg (by decide), if_neg (by decide), if_pos rfl] at hpi
    exact absurd hpi (List.cons_ne_nil _ _)
  · -- the slot is Active with Destroy set: the pending command is its Destroy
    rw [hf] at hpi
    unfold PendOk at hpi
    rw [if_neg (by decide), if_neg (by decide), if_neg (by decide), if_neg (by decide),
      if_pos rfl] at hpi
    simp only [List.cons.injEq, EntityCommand.mk.injEq] at hpi
    obtain ⟨⟨hct, hch⟩, hrest⟩ := hpi
    subst hct
    subst hch
    have hocc : (getEntry s.handles (i : Int)).flags ≠ HandleFlags.free := by
      rw [hf]
      decide
    have hdef : processCommand subs s
        ⟨EntityCommandType.destroy, (getEntry s.handles (i : Int)).handle⟩ =
        destroyHandle (i : Int) s := by
      show (if (getEntry s.handles (i : Int)).handle ≠ (getEntry s.handles
          (calculateHandleIndex (getEntry s.handles (i : Int)).handle)).handle
        then (s, [])
        else destroyHandle (calculateHandleIndex (getEntry s.handles (i : Int)).handle) s) = _
      rw [hidx, if_neg (not_not_intro rfl)]
    rw [hdef]
    obtain ⟨hev, hlen, hei, hothers, hcmd, hcnt, hinit, hflk, hca⟩ :=
      destroyHandle_spec s fc hfl i hi hocc
    rw [hf] at hca
    norm_num at hca
    refine ⟨⟨?_, ?_, ?_, ?_, ?_, ?_, ⟨fc ++ [i], hflk⟩⟩, hlen, ?_, ?_, ?_⟩
    · rw [hinit]
      exact h.init
    · rw [hcmd]
      exact h.cmds
    · intro j hj
      rw [hlen] at hj
      by_cases hji : j = i
      · subst hji
        rw [hei]
        exact h.ids j hj
      · rw [(hothers j hj hji).1]
        exact h.ids j hj
    · rw [hcnt, hca, h.count_eq]
    · intro c2 hc2
      obtain ⟨j, hj, hjid⟩ := h.cmd_bound c2 (List.mem_cons_of_mem _ hc2)
      exact ⟨j, by omega, hjid⟩
    · intro j hj
      rw [hlen] at hj
      by_cases hji : j = i
      · subst hji
        rw [hei, hrest]
        unfold PendOk
        rw [if_pos rfl]
        exact Or.inl rfl
      · rw [(hothers j hj hji).1, (hothers j hj hji).2, ← hmiss j hji]
        exact h.pend j hj
    · intro j hj
      by_cases hji : j = i
      · subst hji
        refine Or.inr (Or.inr ⟨hocc, ?_⟩)
        simp [slotOf, hei]
      · refine Or.inl ?_
        simp [slotOf, (hothers j hj hji).1, (hothers j hj hji).2]
    · intro j hj hjne
      have hji : j ≠ i := by
        intro hcontra
        subst hcontra
        exact hjne hident2
      exact hothers j hj hji
    · intro j hj hfj hvj
      by_cases hji : j = i
      · subst hji
        rw [hf] at hfj
        exact absurd hfj (by decide)
      · obtain ⟨hh, hfq⟩ := hothers j hj hji
        exact ⟨hh, Or.inl (by rw [hfq, hfj])⟩

/-- The ProcessCommands drain loop empties the queue while preserving the
drain invariant; every slot moves along a SlotStep chain, and a slot that
enters the drain Active with no Destroy scheduled is untouched. -/
theorem drainGo_spec (subs : List (EntityHandle → Bool)) (rest : List EntityCommand) :
    ∀ s : EntityState, DrainInv s rest →
    DrainInv (drainGo subs rest s).1 [] ∧
    (drainGo subs rest s).1.handles.length = s.handles.length ∧
    (∀ i, i < s.handles.length →
      Relation.ReflTransGen SlotStep (slotOf s i) (slotOf (drainGo subs rest s).1 i)) ∧
    (∀ i, i < s.handles.length →
      (getEntry s.handles (i : Int)).flags = ⟨true, true, false⟩ →
      (getEntry (drainGo subs rest s).1.handles (i : Int)).handle =
        (getEntry s.handles (i : Int)).handle ∧
      (getEntry (drainGo subs rest s).1.handles (i : Int)).flags = ⟨true, true, false⟩) ∧
    (∀ i, i < s.handles.length →
      (getEntry s.handles (i : Int)).flags = ⟨true, false, false⟩ →
      ¬ (subs.isEmpty = false ∧
        collectWhileTrue subs (getEntry s.handles (i : Int)).handle = false) →
      (getEntry (drainGo subs rest s).1.handles (i : Int)).handle =
        (getEntry s.handles (i : Int)).handle ∧
      ((getEntry (drainGo subs rest s).1.handles (i : Int)).flags = ⟨true, false, false⟩ ∨
        (getEntry (drainGo subs rest s).1.handles (i : Int)).flags =
          ⟨true, true, false⟩)) := by
  induction rest with
  | nil =>
    intro s h
    exact ⟨h, rfl, fun i hi => Relation.ReflTransGen.refl, fun i hi hfi => ⟨rfl, hfi⟩,
      fun i hi hfi hvi => ⟨rfl, Or.inl hfi⟩⟩
  | cons c cs ih =>
    intro s h
    obtain ⟨h1, hlen1, hstep1, hkeep1, hvote1⟩ := drain_step subs s c cs h
    obtain ⟨h2, hlen2, hstep2, hkeep2, hvote2⟩ := ih (processCommand subs s c).1 h1
    rw [drainGo_cons]
    refine ⟨h2, by rw [hlen2, hlen1], ?_, ?_, ?_⟩
    · intro i hi
      exact Relation.ReflTransGen.trans
        (Relation.ReflTransGen.single (hstep1 i hi))
        (hstep2 i (by omega))
    · intro i hi hfi
      have hterm : filterSlot (c :: cs) i = [] := by
        have hp := h.pend i hi
        rw [hfi] at hp
        unfold PendOk at hp
        rw [if_neg (by decide), if_neg (by decide), if_neg (by decide), if_pos rfl] at hp
        exact hp
      have hne : c.handle.identifier ≠ (i : Int) + 1 := by
        intro hcontra
        rw [filterSlot_cons_match c cs i hcontra] at hterm
        exact List.cons_ne_nil _ _ hterm
      obtain ⟨hh1, hf1⟩ := hkeep1 i hi hne
      have hfi1 : (getEntry (processCommand subs s c).1.handles (i : Int)).flags =
          ⟨true, true, false⟩ := by
        rw [hf1, hfi]
      obtain ⟨hh2, hf2⟩ := hkeep2 i (by omega) hfi1
      exact ⟨by rw [hh2, hh1], hf2⟩
    · intro i hi hfi hvi
      obtain ⟨hh1, hf1⟩ := hvote1 i hi hfi hvi
      rcases hf1 with hf1 | hf1
      · obtain ⟨hh2, hf2⟩ := hvote2 i (by omega) hf1 (by rw [hh1]; exact hvi)
        exact ⟨by rw [hh2, hh1], hf2⟩
      · obtain ⟨hh2, hf2⟩ := hkeep2 i (by omega) hf1
        exact ⟨by rw [hh2, hh1], Or.inr hf2⟩

/-- EntitySystem::ProcessCommands on an invariant state: the queue is fully
drained, the invariant is restored, the table length is unchanged, every slot
ends Free or Active (never mid-lifecycle), a slot that was Active with no
Destroy scheduled is untouched, and a slot with Destroy scheduled ends Free
with its version bumped by exactly one. -/
theorem processCommands_spec (subs : List (EntityHandle → Bool)) (s : EntityState)
    (hInv : Inv s) :
    Inv (processCommands subs s).1 ∧
    (processCommands subs s).1.commands = [] ∧
    (processCommands subs s).1.handles.length = s.handles.length ∧
    (∀ i, i < s.handles.length →
      (getEntry (processCommands subs s).1.handles (i : Int)).flags = HandleFlags.free ∨
      (getEntry (processCommands subs s).1.handles (i : Int)).flags = ⟨true, true, false⟩) ∧
    (∀ i, i < s.handles.length →
      Relation.ReflTransGen SlotStep (slotOf s i) (slotOf (processCommands subs s).1 i)) ∧
    (∀ i, i < s.handles.length →
      (getEntry s.handles (i : Int)).flags = ⟨true, true, false⟩ →
      (getEntry (processCommands subs s).1.handles (i : Int)).handle =
        (getEntry s.handles (i : Int)).handle ∧
      (getEntry (processCommands subs s).1.handles (i : Int)).flags = ⟨true, true, false⟩) ∧
    (∀ i, i < s.handles.length →
      (getEntry s.handles (i : Int)).flags.destroy = true →
      (getEntry (processCommands subs s).1.handles (i : Int)).handle =
        ⟨(getEntry s.handles (i : Int)).handle.identifier,
          (getEntry s.handles (i : Int)).handle.version + 1⟩ ∧
      (getEntry (processCommands subs s).1.handles (i : Int)).flags = HandleFlags.free) ∧
    (∀ i, i < s.handles.length →
      (getEntry s.handles (i : Int)).flags = ⟨true, false, false⟩ →
      ¬ (subs.isEmpty = false ∧
        collectWhileTrue subs (getEntry s.handles (i : Int)).handle = false) →
      (getEntry (processCommands subs s).1.handles (i : Int)).handle =
        (getEntry s.handles (i : Int)).handle ∧
      (getEntry (processCommands subs s).1.handles (i : Int)).flags =
        ⟨true, true, false⟩) := by
  have hdef : processCommands subs s = drainGo subs s.commands { s with commands := [] } := by
    rw [processCommands, if_neg (by rw [hInv.init]; simp)]
  obtain ⟨fc, hfl⟩ := hInv.free_list
  have hdi : DrainInv { s with commands := [] } s.commands :=
    ⟨hInv.init, rfl, hInv.ids, hInv.count_eq, hInv.cmd_bound, hInv.pend,
      ⟨fc, FreeListOk_of_eq _ _ _ hfl rfl rfl rfl rfl⟩⟩
  obtain ⟨hd, hlen, hstep, hkeep, hvote⟩ :=
    drainGo_spec subs s.commands { s with commands := [] } hdi
  rw [hdef]
  set t := (drainGo subs s.commands { s with commands := [] }).1 with ht
  have hlen2 : t.handles.length = s.handles.length := hlen
  have hshapes : ∀ i, i < s.handles.length →
      (getEntry t.handles (i : Int)).flags = HandleFlags.free ∨
      (getEntry t.handles (i : Int)).flags = ⟨true, true, false⟩ := by
    intro i hi
    have hp := hd.pend i (by omega)
    rw [filterSlot_empty] at hp
    exact PendOk_nil _ _ hp
  have hInv2 : Inv t := by
    refine ⟨hd.init, hd.ids, hd.count_eq, ?_, ?_, ?_, hd.free_list⟩
    · intro c hc
      rw [hd.cmds] at hc
      exact absurd hc (List.not_mem_nil c)
    · intro i hi
      rw [hd.cmds]
      have hp := hd.pend i hi
      rw [filterSlot_empty] at hp
      rw [filterSlot_empty]
      exact hp
    · intro i hi hfi
      rw [hd.cmds, filterSlot_empty]
  have hvotekeep : ∀ i, i < s.handles.length →
      (getEntry s.handles (i : Int)).flags = ⟨true, false, false⟩ →
      ¬ (subs.isEmpty = false ∧
        collectWhileTrue subs (getEntry s.handles (i : Int)).handle = false) →
      (getEntry t.handles (i : Int)).handle = (getEntry s.handles (i : Int)).handle ∧
      (getEntry t.handles (i : Int)).flags = ⟨true, true, false⟩ := by
    intro i hi hfi hvi
    obtain ⟨hh, hf⟩ := hvote i hi hfi hvi
    rcases hf with hf | hf
    · exfalso
      rcases hshapes i hi with hfree | hact
      · rw [hfree] at hf
        exact absurd hf (by decide)
      · rw [hact] at hf
        exact absurd hf (by decide)
    · exact ⟨hh, hf⟩
  refine ⟨hInv2, hd.cmds, hlen2, hshapes, hstep, hkeep, ?_, hvotekeep⟩
  intro i hi hdes
  rcases slotStep_star_cases _ _ (hstep i hi) with hcase | ⟨hv, ha, hcase⟩ | ⟨hne, hcase⟩
  · exfalso
    have hfe := congrArg Prod.snd hcase
    simp only [slotOf] at hfe
    rcases hshapes i hi with hfree | hact
    · rw [hfree] at hfe
      have := congrArg HandleFlags.destroy hfe
      simp only [HandleFlags.free] at this
      rw [hdes] at this
      simp at this
    · rw [hact] at hfe
      have := congrArg HandleFlags.destroy hfe
      rw [hdes] at this
      simp at this
  · exfalso
    have hfe := congrArg Prod.snd hcase
    simp only [slotOf] at hfe
    rcases hshapes i hi with hfree | hact
    · rw [hfree] at hfe
      have := congrArg HandleFlags.active hfe
      simp only [HandleFlags.free] at this
      simp at this
    · rw [hact] at hfe
      have := congrArg HandleFlags.destroy hfe
      rw [hdes] at this
      simp at this
  · have hhe := congrArg Prod.fst hcase
    have hfe := congrArg Prod.snd hcase
    simp only [slotOf] at hhe hfe
    exact ⟨hhe, hfe⟩

/-! DestroyAllEntities. -/

/-- The invariant carried through the DestroyAllEntities slot loop. -/
structure LoopInv (s : EntityState) : Prop where
  init : s.initialized = true
  cmds : s.commands = []
  ids : ∀ i, i < s.handles.length →
    (getEntry s.handles (i : Int)).handle.identifier = (i : Int) + 1
  count_eq : s.entityCount = (countActive s.handles : Int)
  free_list : ∃ c, FreeListOk s c
  shapes : ∀ i, i < s.handles.length →
    (getEntry s.handles (i : Int)).flags = HandleFlags.free ∨
    (getEntry s.handles (i : Int)).flags = ⟨true, true, false⟩

theorem destroyAllGo_cons_valid (i : Nat) (rest : List Nat) (s : EntityState)
    (h : (getEntry s.handles (i : Int)).flags.valid = true) :
    (destroyAllGo (i :: rest) s).1 =
      (destroyAllGo rest
        (destroyHandle (calculateHandleIndex (getEntry s.handles (i : Int)).handle) s).1).1 := by
  simp only [destroyAllGo]
  rw [if_pos h]

theorem destroyAllGo_cons_skip (i : Nat) (rest : List Nat) (s : EntityState)
    (h : ¬ (getEntry s.handles (i : Int)).flags.valid = true) :
    destroyAllGo (i :: rest) s = destroyAllGo rest s := by
  simp only [destroyAllGo]
  rw [if_neg h]

/-- The slot loop of DestroyAllEntities: every visited slot ends Free, Free
slots are untouched (apart from free-list relinking), and the loop invariant
is preserved. -/
theorem destroyAllGo_spec (l : List Nat) : ∀ s : EntityState, LoopInv s →
    (∀ i ∈ l, i < s.handles.length) →
    LoopInv (destroyAllGo l s).1 ∧
    (destroyAllGo l s).1.handles.length = s.handles.length ∧
    (∀ i ∈ l, (getEntry (destroyAllGo l s).1.handles (i : Int)).flags = HandleFlags.free) ∧
    (∀ i, i < s.handles.length →
      (getEntry s.handles (i : Int)).flags = HandleFlags.free →
      (getEntry (destroyAllGo l s).1.handles (i : Int)).handle =
        (getEntry s.handles (i : Int)).handle ∧
      (getEntry (destroyAllGo l s).1.handles (i : Int)).flags = HandleFlags.free) ∧
    (∀ i, i < s.handles.length →
      Relation.ReflTransGen SlotStep (slotOf s i) (slotOf (destroyAllGo l s).1 i)) := by
  induction l with
  | nil =>
    intro s h hl
    exact ⟨h, rfl, by simp, fun i hi hfi => ⟨rfl, hfi⟩,
      fun i hi => Relation.ReflTransGen.refl⟩
  | cons i rest ih =>
    intro s h hl
    have hilt : i < s.handles.length := hl i (List.mem_cons_self ..)
    by_cases hv : (getEntry s.handles (i : Int)).flags.valid = true
    · -- the slot is still live: it is destroyed
      have hact : (getEntry s.handles (i : Int)).flags = ⟨true, true, false⟩ := by
        rcases h.shapes i hilt with hfree | hflags
        · rw [hfree] at hv
          simp [HandleFlags.free] at hv
        · exact hflags
      have hocc : (getEntry s.handles (i : Int)).flags ≠ HandleFlags.free := by
        rw [hact]
        decide
      have hidx : calculateHandleIndex (getEntry s.handles (i : Int)).handle = (i : Int) := by
        rw [calculateHandleIndex, h.ids i hilt]
        ring
      obtain ⟨fc, hfl⟩ := h.free_list
      obtain ⟨hev, hlen, hei, hothers, hcmd, hcnt, hinit, hflk, hca⟩ :=
        destroyHandle_spec s fc hfl i hilt hocc
      rw [hact] at hca
      norm_num at hca
      set p : EntityState := (destroyHandle (i : Int) s).1 with hp
      have hloop : LoopInv p := by
        refine ⟨by rw [hinit, h.init], by rw [hcmd, h.cmds], ?_, ?_, ⟨fc ++ [i], hflk⟩, ?_⟩
        · intro j hj
          rw [hlen] at hj
          by_cases hji : j = i
          · subst hji
            rw [hei]
            exact h.ids j hj
          · rw [(hothers j hj hji).1]
            exact h.ids j hj
        · rw [hcnt, hca, h.count_eq]
        · intro j hj
          rw [hlen] at hj
          by_cases hji : j = i
          · subst hji
            rw [hei]
            exact Or.inl rfl
          · rw [(hothers j hj hji).2]
            exact h.shapes j hj
      have hbound : ∀ j ∈ rest, j < p.handles.length := by
        intro j hj
        rw [hlen]
        exact hl j (List.mem_cons_of_mem _ hj)
      obtain ⟨h2, hlen2, hfree2, hkeepf2, hstep2⟩ := ih p hloop hbound
      have hdef : (destroyAllGo (i :: rest) s).1 = (destroyAllGo rest p).1 := by
        rw [destroyAllGo_cons_valid i rest s hv, hidx]
      rw [hdef]
      refine ⟨h2, by rw [hlen2, hlen], ?_, ?_, ?_⟩
      · intro j hj
        rcases List.mem_cons.mp hj with hji | hjr
        · subst hji
          have hpf : (getEntry p.handles (j : Int)).flags = HandleFlags.free := by
            rw [hei]
          exact (hkeepf2 j (by rw [hlen]; exact hilt) hpf).2
        · exact hfree2 j hjr
      · intro j hj hjf
        have hji : j ≠ i := by
          intro hcontra
          subst hcontra
          exact hocc hjf
        have hph := (hothers j hj hji).1
        have hpf := (hothers j hj hji).2
        rw [hjf] at hpf
        obtain ⟨hk1, hk2⟩ := hkeepf2 j (by rw [hlen]; exact hj) hpf
        exact ⟨by rw [hk1, hph], hk2⟩
      · intro j hj
        refine Relation.ReflTransGen.trans (Relation.ReflTransGen.single ?_)
          (hstep2 j (by rw [hlen]; exact hj))
        by_cases hji : j = i
        · subst hji
          refine Or.inr (Or.inr ⟨hocc, ?_⟩)
          simp [slotOf, hei]
        · refine Or.inl ?_
          simp [slotOf, (hothers j hj hji).1, (hothers j hj hji).2]
    · -- the slot is not live: it is skipped
      have hfree : (getEntry s.handles (i : Int)).flags = HandleFlags.free := by
        rcases h.shapes i hilt with hfi | hflags
        · exact hfi
        · rw [hflags] at hv
          simp at hv
      have hbound : ∀ j ∈ rest, j < s.handles.length :=
        fun j hj => hl j (List.mem_cons_of_mem _ hj)
      obtain ⟨h2, hlen2, hfree2, hkeepf2, hstep2⟩ := ih s h hbound
      rw [destroyAllGo_cons_skip i rest s hv]
      refine ⟨h2, hlen2, ?_, hkeepf2, hstep2⟩
      intro j hj
      rcases List.mem_cons.mp hj with hji | hjr
      · subst hji
        exact (hkeepf2 j hilt hfree).2
      · exact hfree2 j hjr

theorem getEntry_of_mem (hs : List HandleEntry) (e : HandleEntry) (h : e ∈ hs) :
    ∃ i, i < hs.length ∧ getEntry hs (i : Int) = e := by
  obtain ⟨i, hi, hg⟩ := List.mem_iff_getElem.mp h
  refine ⟨i, hi, ?_⟩
  rw [getEntry_natCast, List.getD_eq_getElem?_getD, List.getElem?_eq_getElem hi]
  simpa using hg

theorem countActive_eq_zero (hs : List HandleEntry)
    (h : ∀ i, i < hs.length → (getEntry hs (i : Int)).flags = HandleFlags.free) :
    countActive hs = 0 := by
  rw [countActive, List.countP_eq_zero]
  intro e he
  obtain ⟨i, hi, hg⟩ := getEntry_of_mem hs e he
  have := h i hi
  rw [hg] at this
  rw [this]
  simp [HandleFlags.free]

theorem destroyAllEntities_fst (subs : List (EntityHandle → Bool)) (s : EntityState)
    (h : s.initialized = true) :
    (destroyAllEntities subs s).1 =
      (destroyAllGo (List.range (processCommands subs s).1.handles.length)
        (processCommands subs s).1).1 := by
  rw [destroyAllEntities, if_neg (by rw [h]; simp)]

/-- EntitySystem::DestroyAllEntities on an invariant state: pending commands
are processed first, then every still-live slot is destroyed; afterwards the
counter is zero, the queue is empty, every slot is Free and on the free list,
no handle whatsoever validates, and the invariant is restored. -/
theorem destroyAllEntities_spec (subs : List (EntityHandle → Bool)) (s : EntityState)
    (hInv : Inv s) :
    Inv (destroyAllEntities subs s).1 ∧
    (destroyAllEntities subs s).1.entityCount = 0 ∧
    (destroyAllEntities subs s).1.commands = [] ∧
    (destroyAllEntities subs s).1.handles.length = s.handles.length ∧
    (∀ i, i < (destroyAllEntities subs s).1.handles.length →
      (getEntry (destroyAllEntities subs s).1.handles (i : Int)).flags = HandleFlags.free) ∧
    (∃ c, FreeListOk (destroyAllEntities subs s).1 c ∧
      ∀ i, i < (destroyAllEntities subs s).1.handles.length → i ∈ c) ∧
    (∀ e : EntityHandle, isHandleValidChecked (destroyAllEntities subs s).1 e ≠ some true) ∧
    (∀ i, i < s.handles.length →
      Relation.ReflTransGen SlotStep (slotOf s i) (slotOf (destroyAllEntities subs s).1 i)) := by
  obtain ⟨hInv1, hcmds1, hlen1, hshapes1, hstep1, hkeep1, hdes1⟩ :=
    processCommands_spec subs s hInv
  set p : EntityState := (processCommands subs s).1 with hp
  have hloop : LoopInv p :=
    ⟨hInv1.init, hcmds1, hInv1.ids, hInv1.count_eq, hInv1.free_list,
      fun i hi => hshapes1 i (by omega)⟩
  have hbound : ∀ j ∈ List.range p.handles.length, j < p.handles.length := by
    intro j hj
    exact List.mem_range.mp hj
  obtain ⟨h2, hlen2, hfree2, hkeepf2, hstep2⟩ :=
    destroyAllGo_spec (List.range p.handles.length) p hloop hbound
  have hdef : (destroyAllEntities subs s).1 = (destroyAllGo (List.range p.handles.length) p).1 :=
    destroyAllEntities_fst subs s hInv.init
  rw [hdef]
  set t : EntityState := (destroyAllGo (List.range p.handles.length) p).1 with ht
  have hallfree : ∀ i, i < t.handles.length →
      (getEntry t.handles (i : Int)).flags = HandleFlags.free := by
    intro i hi
    refine hfree2 i (List.mem_range.mpr ?_)
    omega
  have hca0 : countActive t.handles = 0 := countActive_eq_zero t.handles hallfree
  have hInvT : Inv t := by
    refine ⟨h2.init, h2.ids, h2.count_eq, ?_, ?_, ?_, h2.free_list⟩
    · intro c hc
      rw [h2.cmds] at hc
      exact absurd hc (List.not_mem_nil c)
    · intro i hi
      rw [h2.cmds, filterSlot_empty]
      rw [hallfree i (by omega)]
      unfold PendOk
      rw [if_pos rfl]
      exact Or.inl rfl
    · intro i hi hfi
      rw [h2.cmds, filterSlot_empty]
  refine ⟨hInvT, ?_, h2.cmds, by rw [hlen2, hlen1], hallfree, ?_, ?_, ?_⟩
  · rw [h2.count_eq, hca0]
    simp
  · obtain ⟨c, hflc⟩ := h2.free_list
    refine ⟨c, hflc, ?_⟩
    intro i hi
    exact (hflc.free_iff i hi).mp (hallfree i hi)
  · intro e hcontra
    obtain ⟨hinit2, i, hident, hilt, hv, hd2, hver⟩ :=
      isHandleValidChecked_true_elim _ _ hcontra
    have hfi := hallfree i hilt
    rw [hfi] at hv
    simp [HandleFlags.free] at hv
  · intro i hi
    exact Relation.ReflTransGen.trans (hstep1 i hi) (hstep2 i (by omega))

/-! Reachability: the master invariant holds in every reachable state. -/

theorem Inv_initialState : Inv initialState := by
  refine ⟨rfl, ?_, rfl, ?_, ?_, ?_, ⟨[], ?_, ?_, ?_, ?_, ?_, ?_, ?_, ?_⟩⟩
  · intro i hi
    simp [initialState] at hi
  · intro c hc
    simp [initialState] at hc
  · intro i hi
    simp [initialState] at hi
  · intro i hi
    simp [initialState] at hi
  · rfl
  · rfl
  · rfl
  · exact List.nodup_nil
  · intro i hi
    simp at hi
  · trivial
  · intro i hi
    simp [initialState] at hi
  · intro i hi
    simp [initialState] at hi

theorem Inv_step (s t : EntityState) (hst : Step s t) (hInv : Inv s) : Inv t := by
  cases hst with
  | create =>
    obtain ⟨i, -, -, -, -, -, -, -, -, -, -, hI⟩ := createEntity_spec s hInv
    exact hI
  | destroy e =>
    by_cases hval : isHandleValidChecked s e = some true
    · obtain ⟨i, -, -, -, -, -, -, -, -, -, -, -, -, -, hI⟩ := destroyEntity_spec s hInv e hval
      exact hI
    · rw [destroyEntity_noop s e hval]
      exact hInv
  | process subs =>
    exact (processCommands_spec subs s hInv).1
  | destroyAll subs =>
    exact (destroyAllEntities_spec subs s hInv).1

theorem Inv_reaches (s t : EntityState) (h : Reaches s t) (hInv : Inv s) : Inv t := by
  induction h with
  | refl => exact hInv
  | tail hab hbc ih => exact Inv_step _ _ hbc ih

theorem Inv_reachable (s : EntityState) (h : Reachable s) : Inv s :=
  Inv_reaches initialState s h Inv_initialState

/-! Version monotonicity: no operation ever decreases a slot's stored
version, and the table never shrinks. -/

/-- Table snapshot order: the second table is at least as long and every
common slot's stored version is at least as large. -/
def VerLE (hs ht : List HandleEntry) : Prop :=
  hs.length ≤ ht.length ∧
  ∀ i : Nat, i < hs.length →
    (getEntry hs (i : Int)).handle.version ≤ (getEntry ht (i : Int)).handle.version

theorem VerLE_refl (hs : List HandleEntry) : VerLE hs hs :=
  ⟨le_refl _, fun _ _ => le_refl _⟩

theorem VerLE_trans (hs ht hu : List HandleEntry) (h1 : VerLE hs ht) (h2 : VerLE ht hu) :
    VerLE hs hu := by
  obtain ⟨hl1, hv1⟩ := h1
  obtain ⟨hl2, hv2⟩ := h2
  exact ⟨le_trans hl1 hl2, fun i hi => le_trans (hv1 i hi) (hv2 i (by omega))⟩

theorem VerLE_setEntry (hs : List HandleEntry) (i : Int) (e : HandleEntry)
    (h : (getEntry hs i).handle.version ≤ e.handle.version) :
    VerLE hs (setEntry hs i e) := by
  refine ⟨by rw [length_setEntry], ?_⟩
  intro j hj
  have hset : setEntry hs i e = setEntry hs ((i.toNat : Nat) : Int) e := by
    simp only [setEntry, Int.toNat_natCast]
  have hget : getEntry hs i = getEntry hs ((i.toNat : Nat) : Int) := by
    simp only [getEntry, Int.toNat_natCast]
  by_cases hji : j = i.toNat
  · rw [hset, hji, getEntry_setN_self hs i.toNat e (by omega)]
    rw [hget] at h
    exact h
  · rw [hset, getEntry_setN_ne hs i.toNat j e (Ne.symm hji)]

theorem VerLE_setNextFree (hs : List HandleEntry) (i v : Int) :
    VerLE hs (setNextFree hs i v) :=
  VerLE_setEntry hs i _ (le_refl _)

theorem VerLE_append (hs : List HandleEntry) (e : HandleEntry) : VerLE hs (hs ++ [e]) := by
  refine ⟨by simp, ?_⟩
  intro i hi
  rw [getEntry_append_left hs e i hi]

theorem versionLE_allocateHandle (s : EntityState) :
    VerLE s.handles (allocateHandle s).handles := by
  by_cases hemp : s.freeListIsEmpty = true
  · have hdef : (allocateHandle s).handles =
        s.handles ++ [⟨⟨(s.handles.length : Int) + 1, 0⟩, HandleFlags.free, -1⟩] := by
      simp [allocateHandle, hemp]
    rw [hdef]
    exact VerLE_append ..
  · have hdef : (allocateHandle s).handles =
        setNextFree (s.handles ++ [⟨⟨(s.handles.length : Int) + 1, 0⟩, HandleFlags.free, -1⟩])
          s.freeListEnqueue (s.handles.length : Int) := by
      simp [allocateHandle, hemp]
    rw [hdef]
    exact VerLE_trans _ _ _ (VerLE_append ..) (VerLE_setNextFree ..)

theorem versionLE_retrieveHandle (s : EntityState) :
    VerLE s.handles (retrieveHandle s).2.handles := by
  by_cases hemp : s.freeListIsEmpty = true
  · have h1 : VerLE s.handles (allocateHandle s).handles := versionLE_allocateHandle s
    by_cases hc : (allocateHandle s).freeListDequeue = (allocateHandle s).freeListEnqueue
    · have hdef : (retrieveHandle s).2.handles = (allocateHandle s).handles := by
        simp [retrieveHandle, hemp, hc]
      rw [hdef]
      exact h1
    · have hdef : (retrieveHandle s).2.handles =
          setNextFree (allocateHandle s).handles (allocateHandle s).freeListDequeue (-1) := by
        simp [retrieveHandle, hemp, hc]
      rw [hdef]
      exact VerLE_trans _ _ _ h1 (VerLE_setNextFree ..)
  · by_cases hc : s.freeListDequeue = s.freeListEnqueue
    · have hdef : (retrieveHandle s).2.handles = s.handles := by
        simp [retrieveHandle, hemp, hc]
      rw [hdef]
      exact VerLE_refl _
    · have hdef : (retrieveHandle s).2.handles =
          setNextFree s.handles s.freeListDequeue (-1) := by
        simp [retrieveHandle, hemp, hc]
      rw [hdef]
      exact VerLE_setNextFree ..

theorem versionLE_createEntity (s : EntityState) :
    VerLE s.handles (createEntity s).2.handles := by
  by_cases hinit : s.initialized = false
  · have hdef : (createEntity s).2 = s := by
      simp [createEntity, hinit]
    rw [hdef]
    exact VerLE_refl _
  · have hdef : (createEntity s).2.handles =
        setEntry (retrieveHandle s).2.handles (retrieveHandle s).1
          { getEntry (retrieveHandle s).2.handles (retrieveHandle s).1 with
            flags := { (getEntry (retrieveHandle s).2.handles (retrieveHandle s).1).flags with
              valid := true } } := by
      simp [createEntity, hinit]
    rw [hdef]
    exact VerLE_trans _ _ _ (versionLE_retrieveHandle s) (VerLE_setEntry _ _ _ (le_refl _))

theorem versionLE_destroyEntity (s : EntityState) (e : EntityHandle) :
    VerLE s.handles (destroyEntity s e).handles := by
  by_cases hval : isHandleValidChecked s e = some true
  · by_cases hinit : s.initialized = false
    · have hdef : destroyEntity s e = s := by
        simp [destroyEntity, hinit]
      rw [hdef]
      exact VerLE_refl _
    · have hdef : (destroyEntity s e).handles =
          setEntry s.handles (calculateHandleIndex e)
            { getEntry s.handles (calculateHandleIndex e) with
              flags := { (getEntry s.handles (calculateHandleIndex e)).flags with
                destroy := true } } := by
        simp [destroyEntity, hinit, hval]
      rw [hdef]
      exact VerLE_setEntry _ _ _ (le_refl _)
  · rw [destroyEntity_noop s e hval]
    exact VerLE_refl _

theorem versionLE_freeHandle (s : EntityState) (i : Int) :
    VerLE s.handles (freeHandle i s).handles := by
  have hstep : VerLE s.handles (setEntry s.handles i
      { getEntry s.handles i with
        flags := HandleFlags.free
        handle := { (getEntry s.handles i).handle with
          version := (getEntry s.handles i).handle.version + 1 } }) :=
    VerLE_setEntry _ _ _ (by simp)
  by_cases hemp : s.freeListIsEmpty = true
  · have hdef : (freeHandle i s).handles = setEntry s.handles i
        { getEntry s.handles i with
          flags := HandleFlags.free
          handle := { (getEntry s.handles i).handle with
            version := (getEntry s.handles i).handle.version + 1 } } := by
      simp [freeHandle, hemp]
    rw [hdef]
    exact hstep
  · have hdef : (freeHandle i s).handles = setNextFree
        (setEntry s.handles i
          { getEntry s.handles i with
            flags := HandleFlags.free
            handle := { (getEntry s.handles i).handle with
              version := (getEntry s.handles i).handle.version + 1 } })
        s.freeListEnqueue i := by
      simp [freeHandle, hemp]
    rw [hdef]
    exact VerLE_trans _ _ _ hstep (VerLE_setNextFree ..)

theorem versionLE_destroyHandle (s : EntityState) (i : Int) :
    VerLE s.handles (destroyHandle i s).1.handles :=
  versionLE_freeHandle s i

theorem versionLE_createHandle (subs : List (EntityHandle → Bool)) (s : EntityState)
    (i : Int) : VerLE s.handles (createHandle subs i s).1.handles := by
  by_cases hveto : subs.isEmpty = false ∧
      collectWhileTrue subs (getEntry s.handles i).handle = false
  · have hdef : (createHandle subs i s).1.handles =
        (destroyHandle i { s with entityCount := s.entityCount + 1 }).1.handles := by
      simp only [createHandle]
      rw [if_pos]
      exact ⟨hveto.1, hveto.2⟩
    rw [hdef]
    exact versionLE_destroyHandle { s with entityCount := s.entityCount + 1 } i
  · have hdef : (createHandle subs i s).1.handles =
        setEntry s.handles i
          { getEntry s.handles i with
            flags := { (getEntry s.handles i).flags with active := true } } := by
      simp only [createHandle]
      rw [if_neg hveto]
    rw [hdef]
    exact VerLE_setEntry _ _ _ (le_refl _)

theorem versionLE_processCommand (subs : List (EntityHandle → Bool)) (s : EntityState)
    (c : EntityCommand) : VerLE s.handles (processCommand subs s c).1.handles := by
  obtain ⟨ct, ch⟩ := c
  cases ct with
  | create => exact versionLE_createHandle subs s (calculateHandleIndex ch)
  | destroy =>
    by_cases hne : ch ≠ (getEntry s.handles (calculateHandleIndex ch)).handle
    · have hdef : processCommand subs s ⟨EntityCommandType.destroy, ch⟩ = (s, []) := by
        show (if ch ≠ (getEntry s.handles (calculateHandleIndex ch)).handle then (s, [])
          else destroyHandle (calculateHandleIndex ch) s) = (s, [])
        rw [if_pos hne]
      rw [hdef]
      exact VerLE_refl _
    · have hdef : processCommand subs s ⟨EntityCommandType.destroy, ch⟩ =
          destroyHandle (calculateHandleIndex ch) s := by
        show (if ch ≠ (getEntry s.handles (calculateHandleIndex ch)).handle then (s, [])
          else destroyHandle (calculateHandleIndex ch) s) = _
        rw [if_neg hne]
      rw [hdef]
      exact versionLE_destroyHandle s (calculateHandleIndex ch)

theorem versionLE_drainGo (subs : List (EntityHandle → Bool)) (cs : List EntityCommand) :
    ∀ s : EntityState, VerLE s.handles (drainGo subs cs s).1.handles := by
  induction cs with
  | nil => intro s; exact VerLE_refl _
  | cons c cs ih =>
    intro s
    rw [drainGo_cons]
    exact VerLE_trans _ _ _ (versionLE_processCommand subs s c)
      (ih (processCommand subs s c).1)

theorem versionLE_processCommands (subs : List (EntityHandle → Bool)) (s : EntityState) :
    VerLE s.handles (processCommands subs s).1.handles := by
  by_cases hinit : s.initialized = false
  · have hdef : (processCommands subs s).1 = s := by
      simp [processCommands, hinit]
    rw [hdef]
    exact VerLE_refl _
  · have hdef : (processCommands subs s).1 =
        (drainGo subs s.commands { s with commands := [] }).1 := by
      simp [processCommands, hinit]
    rw [hdef]
    exact versionLE_drainGo subs s.commands { s with commands := [] }

theorem versionLE_destroyAllGo (l : List Nat) :
    ∀ s : EntityState, VerLE s.handles (destroyAllGo l s).1.handles := by
  induction l with
  | nil => intro s; exact VerLE_refl _
  | cons i rest ih =>
    intro s
    by_cases hv : (getEntry s.handles (i : Int)).flags.valid = true
    · rw [destroyAllGo_cons_valid i rest s hv]
      exact VerLE_trans _ _ _
        (versionLE_destroyHandle s (calculateHandleIndex (getEntry s.handles (i : Int)).handle))
        (ih _)
    · rw [destroyAllGo_cons_skip i rest s hv]
      exact ih s

theorem versionLE_destroyAllEntities (subs : List (EntityHandle → Bool)) (s : EntityState) :
    VerLE s.handles (destroyAllEntities subs s).1.handles := by
  by_cases hinit : s.initialized = false
  · have hdef : (destroyAllEntities subs s).1 = s := by
      simp [destroyAllEntities, hinit]
    rw [hdef]
    exact VerLE_refl _
  · have hdef : (destroyAllEntities subs s).1 =
        (destroyAllGo (List.range (processCommands subs s).1.handles.length)
          (processCommands subs s).1).1 := by
      simp [destroyAllEntities, hinit]
    rw [hdef]
    exact VerLE_trans _ _ _ (versionLE_processCommands subs s) (versionLE_destroyAllGo _ _)

theorem versionLE_step (s t : EntityState) (h : Step s t) : VerLE s.handles t.handles := by
  cases h with
  | create => exact versionLE_createEntity s
  | destroy e => exact versionLE_destroyEntity s e
  | process subs => exact versionLE_processCommands subs s
  | destroyAll subs => exact versionLE_destroyAllEntities subs s

theorem versionLE_reaches (s t : EntityState) (h : Reaches s t) : VerLE s.handles t.handles := by
  induction h with
  | refl => exact VerLE_refl _
  | tail hab hbc ih => exact VerLE_trans _ _ _ ih (versionLE_step _ _ hbc)

/-! Persistence of handle validity. -/

/-- A currently valid handle is the stored handle of its slot, and the slot
is in the Valid-only or Active stage. -/
theorem valid_stored (t : EntityState) (hInv : Inv t) (h : EntityHandle)
    (hval : isHandleValidChecked t h = some true) :
    ∃ i : Nat, h.identifier = (i : Int) + 1 ∧ i < t.handles.length ∧
      (getEntry t.handles (i : Int)).handle = h ∧
      ((getEntry t.handles (i : Int)).flags = ⟨true, false, false⟩ ∨
        (getEntry t.handles (i : Int)).flags = ⟨true, true, false⟩) := by
  obtain ⟨hinit, i, hident, hilt, hv, hd, hver⟩ := isHandleValidChecked_true_elim t h hval
  refine ⟨i, hident, hilt, ?_, ?_⟩
  · exact EntityHandle.ext2 _ _ (by rw [hInv.ids i hilt, hident]) hver
  · have hp := hInv.pend i hilt
    rcases PendOk_shapes _ _ _ hp with hf | hf | hf | hf | hf
    · rw [hf] at hv
      exact absurd hv (by simp [HandleFlags.free])
    · exact Or.inl hf
    · rw [hf] at hd
      exact absurd hd (by simp)
    · exact Or.inr hf
    · rw [hf] at hd
      exact absurd hd (by simp)

/-- CreateEntity never invalidates an existing valid handle. -/
theorem valid_preserved_createEntity (t : EntityState) (hInv : Inv t) (h : EntityHandle)
    (hval : isHandleValidChecked t h = some true) :
    isHandleValidChecked (createEntity t).2 h = some true := by
  obtain ⟨hinit, i, hident, hilt, hv, hd, hver⟩ := isHandleValidChecked_true_elim t h hval
  obtain ⟨j, hret, hjlt2, hlen3, hidentj, hflagsj, hothers, hkeepj, hcmds, hcnt, hvalnew,
    hInv2⟩ := createEntity_spec t hInv
  have hilt2 : i < (createEntity t).2.handles.length := by omega
  rw [isHandleValidChecked_char (createEntity t).2 h hInv2.init i hident hilt2]
  by_cases hij : i = j
  · subst hij
    rw [hflagsj, hkeepj hilt]
    have hstored : (getEntry t.handles (i : Int)).handle = h :=
      EntityHandle.ext2 _ _ (by rw [hInv.ids i hilt, hident]) hver
    rw [hstored]
    simp
  · rw [hothers i hilt hij]
    simp [hv, hd, hver]

/-- DestroyEntity of a different handle never invalidates a valid handle. -/
theorem valid_preserved_destroyEntity (t : EntityState) (hInv : Inv t) (e h : EntityHandle)
    (hne : e ≠ h) (hval : isHandleValidChecked t h = some true) :
    isHandleValidChecked (destroyEntity t e) h = some true := by
  by_cases hvale : isHandleValidChecked t e = some true
  · obtain ⟨j, hidente, hjlt, hstorede, hve, hde, hlen, hkeepj, hflagsj, hothers, hcmds,
      hcnt, hinit, hfalse, hInv2⟩ := destroyEntity_spec t hInv e hvale
    obtain ⟨i, hident, hilt, hstored, hshape⟩ := valid_stored t hInv h hval
    have hij : i ≠ j := by
      intro hcontra
      subst hcontra
      rw [← hstorede] at hstored
      exact hne (hstored ▸ hstored)
    have hilt2 : i < (destroyEntity t e).handles.length := by omega
    rw [isHandleValidChecked_char (destroyEntity t e) h hInv2.init i hident hilt2]
    rw [hothers i hilt hij, hstored]
    rcases hshape with hf | hf <;> rw [hf] <;> simp
  · rw [destroyEntity_noop t e hvale]
    exact hval

/-- ProcessCommands never invalidates a valid handle whose finalize vote
passes (no subscribers, or the subscribers approve it). -/
theorem valid_preserved_processCommands (subs : List (EntityHandle → Bool))
    (t : EntityState) (hInv : Inv t) (h : EntityHandle)
    (hval : isHandleValidChecked t h = some true)
    (hvote : subs.isEmpty = true ∨ collectWhileTrue subs h = true) :
    isHandleValidChecked (processCommands subs t).1 h = some true := by
  obtain ⟨i, hident, hilt, hstored, hshape⟩ := valid_stored t hInv h hval
  obtain ⟨hInv2, hcmds, hlen, hshapes, hstep, hkeep, hdes, hvotekeep⟩ :=
    processCommands_spec subs t hInv
  have hilt2 : i < (processCommands subs t).1.handles.length := by omega
  rw [isHandleValidChecked_char (processCommands subs t).1 h hInv2.init i hident hilt2]
  rcases hshape with hf | hf
  · have hvi : ¬ (subs.isEmpty = false ∧
        collectWhileTrue subs (getEntry t.handles (i : Int)).handle = false) := by
      rw [hstored]
      rintro ⟨h1, h2⟩
      rcases hvote with hv2 | hv2
      · rw [hv2] at h1
        exact absurd h1 (by simp)
      · rw [hv2] at h2
        exact absurd h2 (by simp)
    obtain ⟨hh, hfnew⟩ := hvotekeep i hilt hf hvi
    rw [hfnew, hh, hstored]
    simp
  · obtain ⟨hh, hfnew⟩ := hkeep i hilt hf
    rw [hfnew, hh, hstored]
    simp

/-- A helper used by claim C4: relinking a free-list tail touches no slot's
stored handle or flags. -/
theorem handleFlags_setNextFree (hs : List HandleEntry) (q v : Int) (j : Nat)
    (hj : j < hs.length) :
    (getEntry (setNextFree hs q v) (j : Int)).handle = (getEntry hs (j : Int)).handle ∧
    (getEntry (setNextFree hs q v) (j : Int)).flags = (getEntry hs (j : Int)).flags := by
  have hset : setNextFree hs q v =
      setEntry hs ((q.toNat : Nat) : Int)
        { getEntry hs ((q.toNat : Nat) : Int) with nextFree := v } := by
    simp only [setNextFree, setEntry, getEntry, Int.toNat_natCast]
  by_cases hjq : j = q.toNat
  · rw [hset, hjq, getEntry_setN_self _ _ _ (by omega)]
    exact ⟨rfl, rfl⟩
  · rw [hset, getEntry_setN_ne _ _ _ _ (Ne.symm hjq)]
    exact ⟨rfl, rfl⟩

/-! The ten claims. -/

/-- C1: On every reachable entity system state the counter returned by
GetEntityCount equals the number of slots with Active set; CreateEntity and
DestroyEntity leave the counter untouched (it moves only during the
ProcessCommands commit), and the concrete scenario reads 0 after the first
creation and 1 only after the commit. -/
theorem claim_C1 (s : EntityState) (h : Reachable s) :
    getEntityCount s = (countActive s.handles : Int) ∧
    getEntityCount (createEntity s).2 = getEntityCount s ∧
    (∀ e : EntityHandle, getEntityCount (destroyEntity s e) = getEntityCount s) ∧
    getEntityCount (createEntity initialState).2 = 0 ∧
    getEntityCount (processCommands [] (createEntity initialState).2).1 = 1 := by
  have hInv := Inv_reachable s h
  refine ⟨hInv.count_eq, ?_, ?_, by decide, by decide⟩
  · obtain ⟨i, -, -, -, -, -, -, -, -, hcnt, -, -⟩ := createEntity_spec s hInv
    exact hcnt
  · intro e
    by_cases hval : isHandleValidChecked s e = some true
    · obtain ⟨i, -, -, -, -, -, -, -, -, -, -, hcnt, -, -, -⟩ := destroyEntity_spec s hInv e hval
      exact hcnt
    · rw [destroyEntity_noop s e hval]

theorem claim_C1_witness :
    Reachable initialState ∧
    getEntityCount initialState = (countActive initialState.handles : Int) ∧
    getEntityCount (createEntity initialState).2 = 0 ∧
    getEntityCount (processCommands [] (createEntity initialState).2).1 = 1 := by
  have h := claim_C1 initialState Relation.ReflTransGen.refl
  exact ⟨Relation.ReflTransGen.refl, h.1, h.2.2.2.1, h.2.2.2.2⟩

/-- C2: A Destroy command whose handle no longer equals its slot's currently
stored handle is skipped by the drain as a stale no-op: the state is returned
completely unchanged (slot state, version and free-list linkage included)
and no destroy notification is emitted. -/
theorem claim_C2 (subs : List (EntityHandle → Bool)) (s : EntityState) (c : EntityCommand)
    (hct : c.type = EntityCommandType.destroy)
    (hne : c.handle ≠ (getEntry s.handles (calculateHandleIndex c.handle)).handle) :
    processCommand subs s c = (s, []) := by
  obtain ⟨ct, ch⟩ := c
  have hct2 : ct = EntityCommandType.destroy := hct
  subst hct2
  show (if ch ≠ (getEntry s.handles (calculateHandleIndex ch)).handle then (s, [])
    else destroyHandle (calculateHandleIndex ch) s) = (s, [])
  rw [if_pos hne]

theorem claim_C2_witness :
    (⟨EntityCommandType.destroy, ⟨1, 0⟩⟩ : EntityCommand).type =
      EntityCommandType.destroy ∧
    (⟨EntityCommandType.destroy, ⟨1, 0⟩⟩ : EntityCommand).handle ≠
      (getEntry initialState.handles (calculateHandleIndex
        (⟨EntityCommandType.destroy, ⟨1, 0⟩⟩ : EntityCommand).handle)).handle ∧
    processCommand [] initialState ⟨EntityCommandType.destroy, ⟨1, 0⟩⟩ =
      (initialState, []) :=
  ⟨rfl, by decide, claim_C2 [] initialState ⟨EntityCommandType.destroy, ⟨1, 0⟩⟩ rfl (by decide)⟩

/-- C3: A pending Create command whose finalize vote fails is resolved by the
destroy path instead of activation: exactly one destroy notification carrying
the slot's handle and no create notification, the counter ends where it
started, the handle no longer validates, the slot ends Free with Active
never set, and it is appended to the free list for later reuse. -/
theorem claim_C3 (subs : List (EntityHandle → Bool)) (s : EntityState) (c : List Nat)
    (i : Nat) (hfl : FreeListOk s c) (hinit : s.initialized = true)
    (hi : i < s.handles.length)
    (hident : (getEntry s.handles (i : Int)).handle.identifier = (i : Int) + 1)
    (hflags : (getEntry s.handles (i : Int)).flags = ⟨true, false, false⟩)
    (hsub : subs.isEmpty = false)
    (hveto : collectWhileTrue subs (getEntry s.handles (i : Int)).handle = false) :
    (processCommand subs s
        ⟨EntityCommandType.create, (getEntry s.handles (i : Int)).handle⟩).2 =
      [EntityEvent.destroy (getEntry s.handles (i : Int)).handle] ∧
    (processCommand subs s
        ⟨EntityCommandType.create, (getEntry s.handles (i : Int)).handle⟩).1.entityCount =
      s.entityCount ∧
    isHandleValidChecked
      (processCommand subs s
        ⟨EntityCommandType.create, (getEntry s.handles (i : Int)).handle⟩).1
      (getEntry s.handles (i : Int)).handle = some false ∧
    (getEntry (processCommand subs s
        ⟨EntityCommandType.create, (getEntry s.handles (i : Int)).handle⟩).1.handles
      (i : Int)).flags = HandleFlags.free ∧
    (getEntry (processCommand subs s
        ⟨EntityCommandType.create, (getEntry s.handles (i : Int)).handle⟩).1.handles
      (i : Int)).flags.active = false ∧
    FreeListOk (processCommand subs s
        ⟨EntityCommandType.create, (getEntry s.handles (i : Int)).handle⟩).1
      (c ++ [i]) := by
  have hidx : calculateHandleIndex (getEntry s.handles (i : Int)).handle = (i : Int) := by
    rw [calculateHandleIndex, hident]
    ring
  have hdef : processCommand subs s
      ⟨EntityCommandType.create, (getEntry s.handles (i : Int)).handle⟩ =
      createHandle subs (i : Int) s := by
    show createHandle subs (calculateHandleIndex (getEntry s.handles (i : Int)).handle) s = _
    rw [hidx]
  have hocc : (getEntry s.handles (i : Int)).flags ≠ HandleFlags.free := by
    rw [hflags]
    decide
  obtain ⟨hev, hlen, hei, hothers, hcmd, hcnt, hinit2, hflk, hca⟩ :=
    createHandle_veto subs s c hfl i hi hocc hsub hveto
  rw [hdef]
  refine ⟨hev, hcnt, ?_, by rw [hei], by simp [hei, HandleFlags.free], hflk⟩
  rw [isHandleValidChecked_char (createHandle subs (i : Int) s).1
    (getEntry s.handles (i : Int)).handle (by rw [hinit2, hinit]) i hident (by omega)]
  rw [hei]
  simp [HandleFlags.free]

theorem claim_C3_witness : FreeListOk (createEntity initialState).2 [] ∧
    (createEntity initialState).2.initialized = true ∧
    0 < (createEntity initialState).2.handles.length ∧
    (getEntry (createEntity initialState).2.handles ((0 : Nat) : Int)).handle.identifier =
      ((0 : Nat) : Int) + 1 ∧
    (getEntry (createEntity initialState).2.handles ((0 : Nat) : Int)).flags =
      ⟨true, false, false⟩ ∧
    ([fun _ => false] : List (EntityHandle → Bool)).isEmpty = false ∧
    collectWhileTrue [fun _ => false]
      (getEntry (createEntity initialState).2.handles ((0 : Nat) : Int)).handle = false ∧
    isHandleValidChecked
      (processCommand [fun _ => false] (createEntity initialState).2
        ⟨EntityCommandType.create,
          (getEntry (createEntity initialState).2.handles ((0 : Nat) : Int)).handle⟩).1
      (getEntry (createEntity initialState).2.handles ((0 : Nat) : Int)).handle =
      some false := by
  have hfl : FreeListOk (createEntity initialState).2 [] :=
    ⟨by decide, by decide, by decide, by decide, by decide, True.intro, by decide, by decide⟩
  have h := claim_C3 [fun _ => false] (createEntity initialState).2 [] 0 hfl (by decide)
    (by decide) (by decide) (by decide) rfl (by decide)
  exact ⟨hfl, by decide, by decide, by decide, by decide, rfl, by decide, h.2.2.1⟩

/-- C4: A slot's stored version is bumped by exactly one whenever the slot
returns from occupied to Free (the FreeHandle transition) and never
decreases across any sequence of operations; once a valid handle is
destroyed and the destruction committed, it no longer validates, and any
handle CreateEntity later returns for the same slot index carries a strictly
greater version. -/
theorem claim_C4 :
    (∀ (u : EntityState) (i : Nat), i < u.handles.length →
      (getEntry (freeHandle (i : Int) u).handles (i : Int)).handle.version =
        (getEntry u.handles (i : Int)).handle.version + 1 ∧
      (getEntry (freeHandle (i : Int) u).handles (i : Int)).flags = HandleFlags.free) ∧
    (∀ u v : EntityState, Reaches u v → ∀ i : Nat, i < u.handles.length →
      i < v.handles.length ∧
      (getEntry u.handles (i : Int)).handle.version ≤
        (getEntry v.handles (i : Int)).handle.version) ∧
    (∀ (s : EntityState) (h : EntityHandle) (subs : List (EntityHandle → Bool))
      (t : EntityState), Inv s → isHandleValidChecked s h = some true →
      Reaches (processCommands subs (destroyEntity s h)).1 t →
      isHandleValidChecked (processCommands subs (destroyEntity s h)).1 h = some false ∧
      ((createEntity t).1.identifier = h.identifier →
        (createEntity t).1.version > h.version)) := by
  refine ⟨?_, ?_, ?_⟩
  · intro u i hi
    by_cases hemp : u.freeListIsEmpty = true
    · have hdef : (freeHandle (i : Int) u).handles = setEntry u.handles (i : Int)
          { getEntry u.handles (i : Int) with
            flags := HandleFlags.free
            handle := { (getEntry u.handles (i : Int)).handle with
              version := (getEntry u.handles (i : Int)).handle.version + 1 } } := by
        simp [freeHandle, hemp]
      rw [hdef, getEntry_setN_self _ i _ hi]
      exact ⟨rfl, rfl⟩
    · have hdef : (freeHandle (i : Int) u).handles = setNextFree
          (setEntry u.handles (i : Int)
            { getEntry u.handles (i : Int) with
              flags := HandleFlags.free
              handle := { (getEntry u.handles (i : Int)).handle with
                version := (getEntry u.handles (i : Int)).handle.version + 1 } })
          u.freeListEnqueue (i : Int) := by
        simp [freeHandle, hemp]
      have hlen2 : i < (setEntry u.handles (i : Int)
          { getEntry u.handles (i : Int) with
            flags := HandleFlags.free
            handle := { (getEntry u.handles (i : Int)).handle with
              version := (getEntry u.handles (i : Int)).handle.version + 1 } }).length := by
        rw [length_setEntry]
        exact hi
      obtain ⟨hh, hf⟩ := handleFlags_setNextFree
        (setEntry u.handles (i : Int)
          { getEntry u.handles (i : Int) with
            flags := HandleFlags.free
            handle := { (getEntry u.handles (i : Int)).handle with
              version := (getEntry u.handles (i : Int)).handle.version + 1 } })
        u.freeListEnqueue (i : Int) i hlen2
      rw [hdef, hh, hf, getEntry_setN_self _ i _ hi]
      exact ⟨rfl, rfl⟩
  · intro u v hr i hi
    obtain ⟨hl, hv⟩ := versionLE_reaches u v hr
    exact ⟨by omega, hv i hi⟩
  · intro s h subs t hInv hval hreach
    obtain ⟨i, hident, hilt, hstoredh, hvv, hdd, hlen1, hkeeph, hflagsd, hothers, hcmds1,
      hcnt1, hinit1, hfalse1, hInv1⟩ := destroyEntity_spec s hInv h hval
    obtain ⟨hInv2, hcmds2, hlen2, hshapes2, hstep2, hkeep2, hdes2, hvk2⟩ :=
      processCommands_spec subs (destroyEntity s h) hInv1
    have hdesi : (getEntry (destroyEntity s h).handles (i : Int)).flags.destroy = true := by
      rw [hflagsd]
    have hilt1 : i < (destroyEntity s h).handles.length := by omega
    obtain ⟨hhfree, hffree⟩ := hdes2 i hilt1 hdesi
    have hh1 : (getEntry (destroyEntity s h).handles (i : Int)).handle = h := by
      rw [hkeeph, ← hstoredh]
    have hhi2 : (getEntry (processCommands subs (destroyEntity s h)).1.handles
        (i : Int)).handle = ⟨h.identifier, h.version + 1⟩ := by
      rw [hhfree, hh1]
    constructor
    · rw [isHandleValidChecked_char (processCommands subs (destroyEntity s h)).1 h
        hInv2.init i hident (by omega)]
      rw [hffree]
      simp [HandleFlags.free]
    · intro hidsame
      have hInvT : Inv t := Inv_reaches _ t hreach hInv2
      obtain ⟨j, hret, hjlt2, hlen3, hidentj, hflagsj, hothersj, hkeepj, hcmdsj, hcntj,
        hvalj, hInvj⟩ := createEntity_spec t hInvT
      have hji : j = i := by
        have hcast : (j : Int) + 1 = (i : Int) + 1 := by
          rw [← hidentj, hidsame, hident]
        have : (j : Int) = (i : Int) := by omega
        exact_mod_cast this
      subst hji
      obtain ⟨hlmono, hvmono⟩ :=
        versionLE_reaches (processCommands subs (destroyEntity s h)).1 t hreach
      have hiltT : j < t.handles.length := by omega
      have hverT : h.version + 1 ≤ (getEntry t.handles (j : Int)).handle.version := by
        have hm := hvmono j (by omega)
        rw [hhi2] at hm
        simpa using hm
      rw [hret, hkeepj hiltT]
      omega

theorem claim_C4_witness :
    (0 < (createEntity initialState).2.handles.length ∧
      (getEntry (freeHandle ((0 : Nat) : Int) (createEntity initialState).2).handles
        ((0 : Nat) : Int)).handle.version =
        (getEntry (createEntity initialState).2.handles
          ((0 : Nat) : Int)).handle.version + 1) ∧
    (Inv (createEntity initialState).2 ∧
      isHandleValidChecked (createEntity initialState).2 ⟨1, 0⟩ = some true ∧
      isHandleValidChecked
        (processCommands [] (destroyEntity (createEntity initialState).2 ⟨1, 0⟩)).1
        ⟨1, 0⟩ = some false ∧
      ((createEntity (processCommands []
          (destroyEntity (createEntity initialState).2 ⟨1, 0⟩)).1).1.identifier =
          (⟨1, 0⟩ : EntityHandle).identifier →
        (createEntity (processCommands []
          (destroyEntity (createEntity initialState).2 ⟨1, 0⟩)).1).1.version >
          (⟨1, 0⟩ : EntityHandle).version)) := by
  have hInv1 : Inv (createEntity initialState).2 :=
    Inv_reachable _ (Relation.ReflTransGen.single (Step.create initialState))
  obtain ⟨hfalse, himpl⟩ := claim_C4.2.2 (createEntity initialState).2 ⟨1, 0⟩ []
    (processCommands [] (destroyEntity (createEntity initialState).2 ⟨1, 0⟩)).1
    hInv1 (by decide) Relation.ReflTransGen.refl
  exact ⟨⟨by decide, (claim_C4.1 (createEntity initialState).2 0 (by decide)).1⟩,
    hInv1, by decide, hfalse, himpl⟩

/-- C5 (amended): a handle returned by CreateEntity on an invariant state
validates immediately, and a valid handle stays valid across CreateEntity,
across DestroyEntity of any other handle, and across a ProcessCommands whose
finalize vote for it passes; a ProcessCommands whose finalize vote for it
fails invalidates it with no DestroyEntity call (see the counterexample). -/
theorem claim_C5 (s : EntityState) (hInv : Inv s) :
    isHandleValidChecked (createEntity s).2 (createEntity s).1 = some true ∧
    (∀ h : EntityHandle, isHandleValidChecked s h = some true →
      isHandleValidChecked (createEntity s).2 h = some true ∧
      (∀ e : EntityHandle, e ≠ h →
        isHandleValidChecked (destroyEntity s e) h = some true) ∧
      (∀ subs : List (EntityHandle → Bool),
        subs.isEmpty = true ∨ collectWhileTrue subs h = true →
        isHandleValidChecked (processCommands subs s).1 h = some true)) := by
  refine ⟨?_, ?_⟩
  · obtain ⟨i, -, -, -, -, -, -, -, -, -, hval, -⟩ := createEntity_spec s hInv
    exact hval
  · intro h hval
    exact ⟨valid_preserved_createEntity s hInv h hval,
      fun e hne => valid_preserved_destroyEntity s hInv e h hne hval,
      fun subs hv => valid_preserved_processCommands subs s hInv h hval hv⟩

/-- C5 (counterexample to the original claim): the handle returned by
CreateEntity stops validating after a ProcessCommands whose single finalize
subscriber vetoes it, although DestroyEntity was never called. -/
theorem claim_C5_counterexample :
    isHandleValidChecked (createEntity initialState).2 (createEntity initialState).1 =
      some true ∧
    isHandleValidChecked
      (processCommands [fun _ => false] (createEntity initialState).2).1
      (createEntity initialState).1 = some false :=
  ⟨by decide, by decide⟩

theorem claim_C5_witness : Inv initialState ∧
    isHandleValidChecked (createEntity initialState).2 (createEntity initialState).1 =
      some true :=
  ⟨Inv_initialState, (claim_C5 initialState Inv_initialState).1⟩

/-- C6: IsHandleValid is false on a system that is not set up and on the null
identifier; on a set-up system and an in-range identifier it is true exactly
when the slot has Valid set, Destroy clear and a matching stored version —
the Active flag plays no part in validity. -/
theorem claim_C6 (s : EntityState) (e : EntityHandle) :
    (s.initialized = false → isHandleValidChecked s e = some false) ∧
    (e.identifier = 0 → isHandleValidChecked s e = some false) ∧
    (∀ i : Nat, s.initialized = true → e.identifier = (i : Int) + 1 →
      i < s.handles.length →
      (isHandleValidChecked s e = some true ↔
        (getEntry s.handles (i : Int)).flags.valid = true ∧
        (getEntry s.handles (i : Int)).flags.destroy = false ∧
        (getEntry s.handles (i : Int)).handle.version = e.version)) := by
  refine ⟨?_, ?_, ?_⟩
  · intro h0
    rw [isHandleValidChecked, if_pos h0]
  · intro h0
    by_cases hinit : s.initialized = false
    · rw [isHandleValidChecked, if_pos hinit]
    · rw [isHandleValidChecked, if_neg hinit, if_pos h0]
  · intro i hinit hident hi
    rw [isHandleValidChecked_char s e hinit i hident hi]
    constructor
    · intro hsome
      exact of_decide_eq_true (Option.some.inj hsome)
    · intro hconj
      rw [decide_eq_true hconj]

theorem claim_C6_witness :
    isHandleValidChecked (createEntity initialState).2 ⟨1, 0⟩ = some true :=
  ((claim_C6 (createEntity initialState).2 ⟨1, 0⟩).2.2 0 (by decide) (by decide)
    (by decide)).mpr ⟨by decide, by decide, by decide⟩

/-- C7: DestroyAllEntities on an invariant state commits pending commands and
then destroys every still-live entity: afterwards the counter is zero, the
queue is empty, no handle whatsoever validates, and every slot is Free and
linked on the free list. -/
theorem claim_C7 (subs : List (EntityHandle → Bool)) (s : EntityState) (hInv : Inv s) :
    getEntityCount (destroyAllEntities subs s).1 = 0 ∧
    (destroyAllEntities subs s).1.commands = [] ∧
    (∀ e : EntityHandle,
      isHandleValidChecked (destroyAllEntities subs s).1 e ≠ some true) ∧
    (∀ i, i < (destroyAllEntities subs s).1.handles.length →
      (getEntry (destroyAllEntities subs s).1.handles (i : Int)).flags =
        HandleFlags.free) ∧
    (∃ c, FreeListOk (destroyAllEntities subs s).1 c ∧
      ∀ i, i < (destroyAllEntities subs s).1.handles.length → i ∈ c) := by
  obtain ⟨hInvT, hcnt, hcmds, hlen, hall, hfl, hnov, hstep⟩ :=
    destroyAllEntities_spec subs s hInv
  exact ⟨hcnt, hcmds, hnov, hall, hfl⟩

theorem claim_C7_witness : Inv (createEntity initialState).2 ∧
    getEntityCount (destroyAllEntities [] (createEntity initialState).2).1 = 0 ∧
    (destroyAllEntities [] (createEntity initialState).2).1.commands = [] := by
  have hInv1 : Inv (createEntity initialState).2 :=
    Inv_reachable _ (Relation.ReflTransGen.single (Step.create initialState))
  have h := claim_C7 [] (createEntity initialState).2 hInv1
  exact ⟨hInv1, h.1, h.2.1⟩

/-- C8: in every reachable state the Free slots are exactly the members of
one FIFO chain threaded through the nextFree links (dequeued at the head,
enqueued at the tail, as FreeListOk states), and occupied slots are never
linked into it. -/
theorem claim_C8 (s : EntityState) (h : Reachable s) :
    ∃ c : List Nat, FreeListOk s c ∧
      (∀ i, i < s.handles.length →
        ((getEntry s.handles (i : Int)).flags = HandleFlags.free ↔ i ∈ c)) ∧
      (∀ i, i < s.handles.length → i ∉ c →
        (getEntry s.handles (i : Int)).nextFree = -1) := by
  obtain ⟨c, hc⟩ := (Inv_reachable s h).free_list
  exact ⟨c, hc, hc.free_iff, hc.unlinked⟩

theorem claim_C8_witness : Reachable initialState ∧
    ∃ c : List Nat, FreeListOk initialState c ∧
      (∀ i, i < initialState.handles.length →
        ((getEntry initialState.handles (i : Int)).flags = HandleFlags.free ↔ i ∈ c)) ∧
      (∀ i, i < initialState.handles.length → i ∉ c →
        (getEntry initialState.handles (i : Int)).nextFree = -1) :=
  ⟨Relation.ReflTransGen.refl, claim_C8 initialState Relation.ReflTransGen.refl⟩

/-- C9: Modelled from the spec: the CollectWhileTrue finalize vote succeeds
with no subscriber invoked when there are no subscribers; otherwise the
subscribers are invoked in order, the result is the AND of the invoked
prefix, and invocation stops at the first subscriber returning false, whose
predecessors all returned true — later subscribers are never invoked. -/
theorem claim_C9 (subs : List (EntityHandle → Bool)) (h : EntityHandle) :
    (subs = [] → collectWhileTrue subs h = true ∧ collectWhileTrueInvoked subs h = 0) ∧
    collectWhileTrueInvoked subs h ≤ subs.length ∧
    collectWhileTrue subs h =
      ((subs.take (collectWhileTrueInvoked subs h)).all fun f => f h) ∧
    (collectWhileTrue subs h = true →
      collectWhileTrueInvoked subs h = subs.length ∧ ∀ f ∈ subs, f h = true) ∧
    (collectWhileTrue subs h = false →
      ∃ pre f post, subs = pre ++ f :: post ∧
        collectWhileTrueInvoked subs h = pre.length + 1 ∧
        (pre.all fun g => g h) = true ∧ f h = false) := by
  induction subs with
  | nil =>
    refine ⟨fun _ => ⟨rfl, rfl⟩, le_refl _, rfl, fun _ => ⟨rfl, ?_⟩, ?_⟩
    · intro f hf
      exact absurd hf (List.not_mem_nil f)
    · intro hcontra
      simp [collectWhileTrue] at hcontra
  | cons g rest ih =>
    obtain ⟨-, ih2, ih3, ih4, ih5⟩ := ih
    by_cases hg : g h = true
    · have hct : collectWhileTrue (g :: rest) h = collectWhileTrue rest h := by
        simp [collectWhileTrue, hg]
      have hci : collectWhileTrueInvoked (g :: rest) h =
          collectWhileTrueInvoked rest h + 1 := by
        simp [collectWhileTrueInvoked, hg]
      refine ⟨fun hc => absurd hc (List.cons_ne_nil _ _), ?_, ?_, ?_, ?_⟩
      · rw [hci]
        simpa using Nat.succ_le_succ ih2
      · rw [hct, hci, List.take_succ_cons]
        simp [hg]
        exact ih3
      · intro htrue
        rw [hct] at htrue
        obtain ⟨hlen, hall⟩ := ih4 htrue
        refine ⟨by rw [hci, hlen]; simp, ?_⟩
        intro f hf
        rcases List.mem_cons.mp hf with rfl | hf2
        · exact hg
        · exact hall f hf2
      · intro hfalse
        rw [hct] at hfalse
        obtain ⟨pre, f, post, hsplit, hinv, hallpre, hffalse⟩ := ih5 hfalse
        refine ⟨g :: pre, f, post, by rw [hsplit]; rfl, ?_, ?_, hffalse⟩
        · rw [hci, hinv]
          simp
        · simp [hg, hallpre]
    · have hg2 : g h = false := by
        cases hgb : g h
        · rfl
        · exact absurd hgb hg
      have hct : collectWhileTrue (g :: rest) h = false := by
        simp [collectWhileTrue, hg2]
      have hci : collectWhileTrueInvoked (g :: rest) h = 1 := by
        simp [collectWhileTrueInvoked, hg2]
      refine ⟨fun hc => absurd hc (List.cons_ne_nil _ _), ?_, ?_, ?_, ?_⟩
      · rw [hci]
        simp
      · rw [hct, hci]
        simp [hg2]
      · intro htrue
        rw [hct] at htrue
        exact absurd htrue (by simp)
      · intro _
        exact ⟨[], g, rest, rfl, hci, rfl, hg2⟩

theorem claim_C9_witness :
    collectWhileTrue [fun _ => false, fun _ => true] ⟨1, 0⟩ = false ∧
    ∃ pre f post,
      ([fun _ => false, fun _ => true] : List (EntityHandle → Bool)) =
        pre ++ f :: post ∧
      collectWhileTrueInvoked [fun _ => false, fun _ => true] ⟨1, 0⟩ =
        pre.length + 1 ∧
      (pre.all fun g => g ⟨1, 0⟩) = true ∧ f ⟨1, 0⟩ = false :=
  ⟨by decide,
    (claim_C9 [fun _ => false, fun _ => true] ⟨1, 0⟩).2.2.2.2 (by decide)⟩

/-- C10: on a set-up system IsHandleValid is total only over the null
identifier and the identifiers in range: identifier 0 yields false, an
in-range identifier yields a boolean, and a nonzero out-of-range identifier
(too large, or negative) trips the fatal range assertion, modelled as the
none result. -/
theorem claim_C10 (s : EntityState) (e : EntityHandle) (hinit : s.initialized = true) :
    (e.identifier = 0 → isHandleValidChecked s e = some false) ∧
    (0 < e.identifier → e.identifier ≤ (s.handles.length : Int) →
      ∃ b, isHandleValidChecked s e = some b) ∧
    ((s.handles.length : Int) < e.identifier → isHandleValidChecked s e = none) ∧
    (e.identifier < 0 → isHandleValidChecked s e = none) := by
  have hni : ¬ s.initialized = false := by
    rw [hinit]
    simp
  refine ⟨?_, ?_, ?_, ?_⟩
  · intro h0
    rw [isHandleValidChecked, if_neg hni, if_pos h0]
  · intro hpos hle
    have hident : e.identifier = (((e.identifier - 1).toNat : Nat) : Int) + 1 := by
      omega
    have hlt : (e.identifier - 1).toNat < s.handles.length := by
      omega
    exact ⟨_, isHandleValidChecked_char s e hinit (e.identifier - 1).toNat hident hlt⟩
  · intro hgt
    rw [isHandleValidChecked, if_neg hni, if_neg (by omega),
      if_pos (by omega : ¬ (0 < e.identifier ∧ e.identifier ≤ (s.handles.length : Int)))]
  · intro hneg
    rw [isHandleValidChecked, if_neg hni, if_neg (by omega),
      if_pos (by omega : ¬ (0 < e.identifier ∧ e.identifier ≤ (s.handles.length : Int)))]

theorem claim_C10_witness :
    initialState.initialized = true ∧
    isHandleValidChecked initialState ⟨0, 7⟩ = some false ∧
    isHandleValidChecked initialState ⟨5, 0⟩ = none ∧
    isHandleValidChecked initialState ⟨-3, 0⟩ = none :=
  ⟨rfl, (claim_C10 initialState ⟨0, 7⟩ rfl).1 rfl,
    (claim_C10 initialState ⟨5, 0⟩ rfl).2.2.1 (by decide),
    (claim_C10 initialState ⟨-3, 0⟩ rfl).2.2.2 (by decide)⟩

end StarGame
